import Mathlib

/-!
Verification of the Janeway publication-fee-quotation plugin.

The Python sources (`logic.py`, `models.py`, `views.py`, `hooks.py`) are
shallowly embedded below.  Python strings are modelled as `List Char`,
machine integers as `Nat`/`Int`, JSON values as the inductive `PyValue`,
and the database of quotation records as an explicit `DB` value threaded
through each operation.  Host-platform services (the Django ORM, the
`requests` HTTP client, `json.loads`) appear as explicit oracle inputs
where the plugin consumes their results.
-/

namespace FeeQuotation

/-- A Python string, modelled as a list of characters. -/
abbrev Str := List Char

/-! ## String primitives (Python `str.replace`, `in`, occurrence counting)

`str.replace` scans left to right and replaces non-overlapping
occurrences.  The plugin only ever replaces non-empty patterns
(placeholders of the shape `\x7b\x7bname\x7d\x7d`), so the model fixes
the non-empty-pattern semantics. -/

/-- Worker for `replaceAll`: `skip` counts characters still to copy from a
replacement site that has already been consumed. -/
def replaceAllGo (pat repl : Str) : Nat → Str → Str
  | _, [] => []
  | n + 1, _ :: rest => replaceAllGo pat repl n rest
  | 0, c :: rest =>
    if pat.isPrefixOf (c :: rest) then
      repl ++ replaceAllGo pat repl (pat.length - 1) rest
    else
      c :: replaceAllGo pat repl 0 rest

/-- Python `s.replace(pat, repl)` for a non-empty pattern `pat`:
left-to-right replacement of non-overlapping occurrences. -/
def replaceAll (pat repl s : Str) : Str :=
  replaceAllGo pat repl 0 s

/-- Python `pat in s`: substring containment. -/
def containsSub (pat : Str) : Str → Bool
  | [] => pat.isEmpty
  | c :: rest => pat.isPrefixOf (c :: rest) || containsSub pat rest

/-- Number of positions of `s` at which `pat` occurs (used to state
claims about occurrences of placeholders). -/
def countSub (pat : Str) : Str → Nat
  | [] => 0
  | c :: rest => (if pat.isPrefixOf (c :: rest) then 1 else 0) + countSub pat rest

/-! ## Python values

The subset of Python/JSON values the plugin manipulates: scalars,
lists and (insertion-ordered) dicts. -/

inductive PyValue where
  | none
  | bool (b : Bool)
  | int (n : Int)
  | str (s : Str)
  | list (items : List PyValue)
  | dict (entries : List (Str × PyValue))

/-- Python truthiness (`bool(v)`). -/
def PyValue.truthy : PyValue → Bool
  | .none => false
  | .bool b => b
  | .int n => n != 0
  | .str s => !s.isEmpty
  | .list xs => !xs.isEmpty
  | .dict es => !es.isEmpty

/-- `isinstance(value, (list, dict))` in `render_template`. -/
def PyValue.isStructured : PyValue → Bool
  | .list _ => true
  | .dict _ => true
  | _ => false

/-- Decimal representation of an integer, as produced by Python `str(n)`. -/
def intRepr (n : Int) : Str :=
  if n < 0 then Char.ofNat 45 :: Nat.toDigits 10 n.natAbs
  else Nat.toDigits 10 n.toNat

/-- Lowercase hexadecimal digit. -/
def hexDigit (n : Nat) : Char :=
  if n < 10 then Char.ofNat (48 + n) else Char.ofNat (97 + (n - 10))

/-- Fixed-width lowercase hexadecimal representation (base case width 0). -/
def hexFixed : Nat → Nat → Str
  | 0, _ => []
  | w + 1, n => hexFixed w (n / 16) ++ [hexDigit (n % 16)]

/-- JSON string escaping as performed by Python `json.dumps` with its
default `ensure_ascii=True`: quote and backslash are escaped, control
characters use the short escapes or `\u00xx`, and non-ASCII characters
are emitted as `\uxxxx` (surrogate pairs above the BMP). -/
def jsonEscapeChar (c : Char) : Str :=
  if c = Char.ofNat 34 then [Char.ofNat 92, Char.ofNat 34]
  else if c = Char.ofNat 92 then [Char.ofNat 92, Char.ofNat 92]
  else if c = Char.ofNat 10 then [Char.ofNat 92, 'n']
  else if c = Char.ofNat 13 then [Char.ofNat 92, 'r']
  else if c = Char.ofNat 9 then [Char.ofNat 92, 't']
  else if c = Char.ofNat 8 then [Char.ofNat 92, 'b']
  else if c = Char.ofNat 12 then [Char.ofNat 92, 'f']
  else if c.toNat < 32 then Char.ofNat 92 :: 'u' :: hexFixed 4 c.toNat
  else if c.toNat < 127 then [c]
  else if c.toNat < 65536 then Char.ofNat 92 :: 'u' :: hexFixed 4 c.toNat
  else
    let u := c.toNat - 65536
    (Char.ofNat 92 :: 'u' :: hexFixed 4 (55296 + u / 1024)) ++
      (Char.ofNat 92 :: 'u' :: hexFixed 4 (56320 + u % 1024))

/-- A JSON string literal for `s`, including the surrounding quotes. -/
def jsonQuote (s : Str) : Str :=
  Char.ofNat 34 :: (s.map jsonEscapeChar).flatten ++ [Char.ofNat 34]

mutual

/-- `json.dumps(v)` with Python's default separators `", "` and `": "`. -/
def jsonDumps : PyValue → Str
  | .none => 'n' :: 'u' :: 'l' :: 'l' :: []
  | .bool true => 't' :: 'r' :: 'u' :: 'e' :: []
  | .bool false => 'f' :: 'a' :: 'l' :: 's' :: 'e' :: []
  | .int n => intRepr n
  | .str s => jsonQuote s
  | .list xs => '[' :: jsonDumpsList xs ++ [']']
  | .dict es => Char.ofNat 123 :: jsonDumpsEntries es ++ [Char.ofNat 125]

/-- Comma-separated JSON serialisations of list items. -/
def jsonDumpsList : List PyValue → Str
  | [] => []
  | [x] => jsonDumps x
  | x :: y :: xs => jsonDumps x ++ (',' :: ' ' :: jsonDumpsList (y :: xs))

/-- Comma-separated `"key": value` serialisations of dict entries. -/
def jsonDumpsEntries : List (Str × PyValue) → Str
  | [] => []
  | [(k, v)] => jsonQuote k ++ (':' :: ' ' :: jsonDumps v)
  | (k, v) :: e :: es =>
    jsonQuote k ++ (':' :: ' ' :: jsonDumps v) ++ (',' :: ' ' :: jsonDumpsEntries (e :: es))

end

/-- Python `repr` escaping for one character inside a string literal
quoted by `q` (printable ASCII kept, quote and backslash escaped,
other control characters as `\xhh`; non-ASCII printables are kept,
matching `repr` for the character ranges exercised here). -/
def pyReprEscapeChar (q : Char) (c : Char) : Str :=
  if c = Char.ofNat 92 then [Char.ofNat 92, Char.ofNat 92]
  else if c = q then [Char.ofNat 92, q]
  else if c = Char.ofNat 10 then [Char.ofNat 92, 'n']
  else if c = Char.ofNat 13 then [Char.ofNat 92, 'r']
  else if c = Char.ofNat 9 then [Char.ofNat 92, 't']
  else if c.toNat < 32 || c.toNat = 127 then Char.ofNat 92 :: 'x' :: hexFixed 2 c.toNat
  else [c]

/-- Python `repr` of a string: single quotes preferred, double quotes
when the text contains a single quote but no double quote. -/
def pyReprStr (s : Str) : Str :=
  let q : Char :=
    if s.contains (Char.ofNat 39) && !s.contains (Char.ofNat 34) then Char.ofNat 34
    else Char.ofNat 39
  q :: (s.map (pyReprEscapeChar q)).flatten ++ [q]

mutual

/-- Python `repr(v)`. -/
def pyRepr : PyValue → Str
  | .none => 'N' :: 'o' :: 'n' :: 'e' :: []
  | .bool true => 'T' :: 'r' :: 'u' :: 'e' :: []
  | .bool false => 'F' :: 'a' :: 'l' :: 's' :: 'e' :: []
  | .int n => intRepr n
  | .str s => pyReprStr s
  | .list xs => '[' :: pyReprList xs ++ [']']
  | .dict es => Char.ofNat 123 :: pyReprEntries es ++ [Char.ofNat 125]

/-- Comma-separated `repr`s of list items. -/
def pyReprList : List PyValue → Str
  | [] => []
  | [x] => pyRepr x
  | x :: y :: xs => pyRepr x ++ (',' :: ' ' :: pyReprList (y :: xs))

/-- Comma-separated `repr(key): repr(value)` of dict entries. -/
def pyReprEntries : List (Str × PyValue) → Str
  | [] => []
  | [(k, v)] => pyReprStr k ++ (':' :: ' ' :: pyRepr v)
  | (k, v) :: e :: es =>
    pyReprStr k ++ (':' :: ' ' :: pyRepr v) ++ (',' :: ' ' :: pyReprEntries (e :: es))

end

/-- Python `str(v)`: identity on strings, `repr` on containers. -/
def pyStr : PyValue → Str
  | .str s => s
  | v => pyRepr v

/-! ## `logic.render_template` -/

/-- The placeholder text `\x7b\x7bkey\x7d\x7d`. -/
def phOf (key : Str) : Str :=
  Char.ofNat 123 :: Char.ofNat 123 :: key ++ [Char.ofNat 125, Char.ofNat 125]

/-- The quoted placeholder text `"\x7b\x7bkey\x7d\x7d"`. -/
def quotedPhOf (key : Str) : Str :=
  Char.ofNat 34 :: phOf key ++ [Char.ofNat 34]

/-- One iteration of the `for key, value in context.items()` loop in
`logic.render_template` (logic.py:224-238). -/
def renderStep (result : Str) (key : Str) (value : PyValue) : Str :=
  let placeholder := phOf key
  if value.isStructured then
    let jsonValue := jsonDumps value
    let quotedPlaceholder := quotedPhOf key
    if containsSub quotedPlaceholder result then
      replaceAll quotedPlaceholder jsonValue result
    else
      replaceAll placeholder jsonValue result
  else
    replaceAll placeholder (if value.truthy then pyStr value else []) result

/-- `logic.render_template` (logic.py:213-239).  The context is an
insertion-ordered association list, mirroring the Python dict. -/
def render_template (template : Str) (context : List (Str × PyValue)) : Str :=
  context.foldl (fun result kv => renderStep result kv.1 kv.2) template

/-! ## SHA-256 and HMAC-SHA256

`views.webhook_callback` verifies callbacks with
`hmac.new(secret, body, hashlib.sha256).hexdigest()`.  The host`s
`hashlib`/`hmac` are standard algorithms; they are embedded here in
full (FIPS 180-4 / RFC 2104) over byte lists (`List Nat`, each < 256). -/

/-- Truncation to a 32-bit word. -/
def w32 (n : Nat) : Nat := n % 4294967296

/-- 32-bit right rotation. -/
def rotr (n x : Nat) : Nat :=
  w32 ((x >>> n) ||| (x <<< (32 - n)))

/-- The SHA-256 round constants. -/
def sha256K : List Nat :=
  [1116352408, 1899447441, 3049323471, 3921009573, 961987163,
   1508970993, 2453635748, 2870763221, 3624381080, 310598401,
   607225278, 1426881987, 1925078388, 2162078206, 2614888103,
   3248222580, 3835390401, 4022224774, 264347078, 604807628,
   770255983, 1249150122, 1555081692, 1996064986, 2554220882,
   2821834349, 2952996808, 3210313671, 3336571891, 3584528711,
   113926993, 338241895, 666307205, 773529912, 1294757372,
   1396182291, 1695183700, 1986661051, 2177026350, 2456956037,
   2730485921, 2820302411, 3259730800, 3345764771, 3516065817,
   3600352804, 4094571909, 275423344, 430227734, 506948616,
   659060556, 883997877, 958139571, 1322822218, 1537002063,
   1747873779, 1955562222, 2024104815, 2227730452, 2361852424,
   2428436474, 2756734187, 3204031479, 3329325298]

/-- The SHA-256 initial hash value. -/
def sha256H0 : List Nat :=
  [1779033703, 3144134277, 1013904242, 2773480762,
   1359893119, 2600822924, 528734635, 1541459225]

/-- Big-endian 32-bit words from a 64-byte block. -/
def wordsOfBlock : List Nat → List Nat
  | a :: b :: c :: d :: rest => (((a * 256 + b) * 256 + c) * 256 + d) :: wordsOfBlock rest
  | _ => []

/-- The small sigma functions of the SHA-256 message schedule. -/
def ssig0 (x : Nat) : Nat := (rotr 7 x) ^^^ (rotr 18 x) ^^^ (x >>> 3)

/-- Second small sigma function. -/
def ssig1 (x : Nat) : Nat := (rotr 17 x) ^^^ (rotr 19 x) ^^^ (x >>> 10)

/-- Message-schedule extension: extends the 16 block words to 64. -/
def sha256Schedule (ws : List Nat) : Nat → List Nat
  | 0 => ws
  | n + 1 =>
    let ws := sha256Schedule ws n
    let i := ws.length
    ws ++ [w32 (ssig1 (ws.getD (i - 2) 0) + ws.getD (i - 7) 0 +
                ssig0 (ws.getD (i - 15) 0) + ws.getD (i - 16) 0)]

/-- One SHA-256 round on the eight-word working state. -/
def sha256Round (st : List Nat) (k w : Nat) : List Nat :=
  match st with
  | [a, b, c, d, e, f, g, h] =>
    let s1 := (rotr 6 e) ^^^ (rotr 11 e) ^^^ (rotr 25 e)
    let ch := (e &&& f) ^^^ ((4294967295 ^^^ e) &&& g)
    let t1 := w32 (h + s1 + ch + k + w)
    let s0 := (rotr 2 a) ^^^ (rotr 13 a) ^^^ (rotr 22 a)
    let mj := (a &&& b) ^^^ (a &&& c) ^^^ (b &&& c)
    let t2 := w32 (s0 + mj)
    [w32 (t1 + t2), a, b, c, w32 (d + t1), e, f, g]
  | st => st

/-- The SHA-256 compression function on one 64-byte block. -/
def sha256Compress (h : List Nat) (block : List Nat) : List Nat :=
  let ws := sha256Schedule (wordsOfBlock block) 48
  let st := (sha256K.zip ws).foldl (fun st kw => sha256Round st kw.1 kw.2) h
  (h.zip st).map (fun p => w32 (p.1 + p.2))

/-- Big-endian byte serialisation of `n` over `len` bytes. -/
def beBytes : Nat → Nat → List Nat
  | 0, _ => []
  | l + 1, n => beBytes l (n / 256) ++ [n % 256]

/-- SHA-256 padding: a `0x80` byte, zeros to 56 mod 64, then the
64-bit big-endian bit length. -/
def sha256Pad (msg : List Nat) : List Nat :=
  let len := msg.length
  let zeros := (64 + 55 - len % 64) % 64
  msg ++ (128 :: List.replicate zeros 0) ++ beBytes 8 (len * 8)

/-- Fuelled worker for `chunks64` (each step consumes 64 bytes, so the
input length is an adequate fuel bound). -/
def chunks64Go : Nat → List Nat → List (List Nat)
  | 0, _ => []
  | _, [] => []
  | fuel + 1, b :: bytes => (b :: bytes).take 64 :: chunks64Go fuel ((b :: bytes).drop 64)

/-- Split into 64-byte blocks (the padded input has length a multiple of 64). -/
def chunks64 (bytes : List Nat) : List (List Nat) :=
  chunks64Go bytes.length bytes

/-- SHA-256 digest (32 bytes) of a byte string. -/
def sha256 (msg : List Nat) : List Nat :=
  let h := (chunks64 (sha256Pad msg)).foldl sha256Compress sha256H0
  (h.map (beBytes 4)).flatten

/-- HMAC-SHA256 (RFC 2104) of `msg` under `key`, as computed by
`hmac.new(key, msg, hashlib.sha256).digest()`. -/
def hmacSha256 (key msg : List Nat) : List Nat :=
  let key := if key.length > 64 then sha256 key else key
  let key := key ++ List.replicate (64 - key.length) 0
  let ipadded := key.map (fun b => b ^^^ 0x36)
  let opadded := key.map (fun b => b ^^^ 0x5c)
  sha256 (opadded ++ sha256 (ipadded ++ msg))

/-- Lowercase hex encoding of a byte string (`.hexdigest()`). -/
def hexOfBytes (bytes : List Nat) : Str :=
  (bytes.map (hexFixed 2)).flatten

/-- `hmac.new(key, msg, hashlib.sha256).hexdigest()`. -/
def hmacSha256Hex (key msg : List Nat) : Str :=
  hexOfBytes (hmacSha256 key msg)

/-- UTF-8 encoding of a string (`str.encode()`), used on the configured
webhook secret before HMAC computation. -/
def utf8Encode (s : Str) : List Nat :=
  s.flatMap (fun c =>
    let n := c.toNat
    if n < 128 then [n]
    else if n < 2048 then [192 + n / 64, 128 + n % 64]
    else if n < 65536 then [224 + n / 4096, 128 + n / 64 % 64, 128 + n % 64]
    else [240 + n / 262144, 128 + n / 4096 % 64, 128 + n / 64 % 64, 128 + n % 64])

/-! ## Data model (`models.py`)

`FeeQuotationStatus` (models.py:200-220), `FeeQuotation` (models.py:223),
`FeeQuotationConfiguration` (models.py:13), and the host `Journal`,
`Article` and `FrozenAuthor` records the plugin reads.  The Django
database is modelled as an explicit `DB` value; `auto_now_add` creation
timestamps and autoincrement primary keys are modelled by the `now`
argument of each operation and the `nextQuotationId` counter. -/

inductive QStatus where
  | pending
  | requested
  | presented
  | accepted
  | declined
  | error
  | expired
  | voided
deriving DecidableEq, Repr

/-- The two payload fields `views.webhook_callback` reads from the parsed
JSON body (`payload.get("quote_id")`, `payload.get("status", "")`).  The
view docstring documents both as strings; an absent key is `Option.none`. -/
structure WebhookPayload where
  quote_id : Option Str
  status : Option Str
deriving DecidableEq, Repr

/-- A `FeeQuotation` row (models.py:223-296). -/
structure Quotation where
  id : Nat
  articleId : Nat
  authorId : Option Nat
  status : QStatus
  external_quote_id : Option Str
  quotation_url : Option PyValue
  api_response : Option PyValue
  error_message : Option Str
  webhook_received_at : Option Nat
  webhook_payload : Option WebhookPayload
  created : Nat
  expires_at : Option Nat

/-- A `FeeQuotationConfiguration` row (models.py:13-164).  `api_headers`
only feeds the outbound HTTP call and the UI texts are not consulted by
the embedded logic. -/
structure Config where
  journalCode : Str
  api_url : Str
  request_body_template : Str
  response_quote_id_field : Str
  quotation_url_template : Str
  api_headers : Str
  webhook_secret : Str
  is_enabled : Bool
  require_acceptance : Bool
  section_mode : Str
  selected_sections : List Nat

/-- A host `Organization` location (city name and ISO country code). -/
structure OrgLocation where
  name : Option Str
  countryCode : Option Str

/-- A host `Organization`: ROR id, the optional Ringgold id supplied by
the `ringgold_import` plugin (absent when not installed), and the
display name produced by `str(organization)`. -/
structure Organization where
  ror_id : Option Str
  ringgold_id : Option Str
  displayName : Str
  location : Option OrgLocation

/-- A host `Affiliation` (organization plus department). -/
structure Affiliation where
  organization : Option Organization
  department : Str

/-- A host `FrozenAuthor` row, with the fields `logic.build_author_data`
reads.  `author` is the linked `Account` pk and `primary_affiliation`
the result of the host `primary_affiliation()` lookup. -/
structure FrozenAuthorRec where
  pk : Nat
  author : Option Nat
  order : Nat
  email : Option Str
  first_name : Option Str
  middle_name : Option Str
  last_name : Option Str
  name_prefix : Option Str
  name_suffix : Option Str
  orcid : Option Str
  primary_affiliation : Option Affiliation

/-- A host `Article`: journal, section and correspondence author
references plus the frozen-author set. -/
structure Article where
  pk : Nat
  journalCode : Str
  sectionId : Option Nat
  correspondence_author : Option Nat
  frozen_authors : List FrozenAuthorRec

/-- The database state the plugin operates on. -/
structure DB where
  journals : List Str
  configs : List Config
  articles : List Article
  quotations : List Quotation
  nextQuotationId : Nat

/-- `FeeQuotationConfiguration` lookup via `journal.fee_quotation_config`
(`DoesNotExist` is `Option.none`). -/
def configFor (db : DB) (journalCode : Str) : Option Config :=
  db.configs.find? (fun c => c.journalCode == journalCode)

/-- Article lookup by pk. -/
def articleFor (db : DB) (articleId : Nat) : Option Article :=
  db.articles.find? (fun a => a.pk == articleId)

/-- The journal an article belongs to (`article.journal`). -/
def articleJournal (db : DB) (articleId : Nat) : Option Str :=
  (articleFor db articleId).map Article.journalCode

/-- `FeeQuotation.is_expired` (models.py:308-313): lazily evaluated
against the current time. -/
def is_expired (q : Quotation) (now : Nat) : Bool :=
  match q.expires_at with
  | some t => now > t
  | Option.none => false

/-- `FeeQuotation.mark_accepted` (models.py:329-335). -/
def mark_accepted (q : Quotation) (payload : Option WebhookPayload) (now : Nat) : Quotation :=
  { q with
    status := QStatus.accepted
    webhook_received_at := some now
    webhook_payload := match payload with
      | some p => some p
      | Option.none => q.webhook_payload }

/-- `FeeQuotation.mark_declined` (models.py:337-343). -/
def mark_declined (q : Quotation) (payload : Option WebhookPayload) (now : Nat) : Quotation :=
  { q with
    status := QStatus.declined
    webhook_received_at := some now
    webhook_payload := match payload with
      | some p => some p
      | Option.none => q.webhook_payload }

/-- `FeeQuotation.mark_error` (models.py:345-349). -/
def mark_error (q : Quotation) (msg : Str) : Quotation :=
  { q with status := QStatus.error, error_message := some msg }

/-- `FeeQuotation.mark_voided` (models.py:351-356): the reason is stored
only when truthy. -/
def mark_voided (q : Quotation) (reason : Option Str) : Quotation :=
  let q := { q with status := QStatus.voided }
  match reason with
  | some r => if r.isEmpty then q else { q with error_message := some r }
  | Option.none => q

/-- Persist a modified quotation row (`.save()`): replaces the row with
the same pk. -/
def updateQuotation (db : DB) (q : Quotation) : DB :=
  { db with quotations := db.quotations.map (fun r => if r.id == q.id then q else r) }

/-- `order_by("-created").first()`: the most recently created row (the
embedded operations create rows with strictly increasing timestamps, so
the maximum is unique on reachable states). -/
def newestByCreated (l : List Quotation) : Option Quotation :=
  l.foldl
    (fun acc q =>
      match acc with
      | Option.none => some q
      | some a => if q.created > a.created then some q else acc)
    Option.none

/-! ## Quotation service (`logic.py`) -/

/-- The statuses reused by `logic.get_or_create_quotation` (logic.py:191-196). -/
def reusableStatuses : List QStatus :=
  [QStatus.pending, QStatus.requested, QStatus.presented, QStatus.accepted]

/-- `FeeQuotation.objects.create(..., status=PENDING)` (logic.py:206-210):
a fresh `pending` row with the next primary key and the current creation
timestamp. -/
def createPendingQuotation (db : DB) (articleId authorId now : Nat) : DB × Quotation :=
  let q : Quotation :=
    { id := db.nextQuotationId
      articleId := articleId
      authorId := some authorId
      status := QStatus.pending
      external_quote_id := Option.none
      quotation_url := Option.none
      api_response := Option.none
      error_message := Option.none
      webhook_received_at := Option.none
      webhook_payload := Option.none
      created := now
      expires_at := Option.none }
  ({ db with
      quotations := db.quotations ++ [q]
      nextQuotationId := db.nextQuotationId + 1 }, q)

/-- `logic.get_or_create_quotation` (logic.py:181-210): returns the
newest quotation for the pair with a reusable status, provided that one
is not expired; otherwise creates a fresh `pending` row. -/
def get_or_create_quotation (db : DB) (articleId authorId : Nat) (now : Nat) :
    DB × Quotation :=
  let candidates := db.quotations.filter (fun q =>
    q.articleId == articleId && q.authorId == some authorId &&
    reusableStatuses.contains q.status)
  let existing := newestByCreated candidates
  match existing with
  | some e =>
    if !is_expired e now then (db, e)
    else createPendingQuotation db articleId authorId now
  | Option.none => createPendingQuotation db articleId authorId now

/-- Python `s.split(sep)` for a single-character separator (keeps empty
segments, as `str.split` does). -/
def splitOnChar (sep : Char) : Str → List Str
  | [] => [[]]
  | c :: rest =>
    let r := splitOnChar sep rest
    if c == sep then [] :: r
    else
      match r with
      | h :: t => (c :: h) :: t
      | [] => [[c]]

/-- First value for a key in an association list (Python dict lookup on
parsed JSON objects, whose keys are unique). -/
def lookupStr (k : Str) (entries : List (Str × PyValue)) : Option PyValue :=
  (entries.find? (fun kv => kv.1 == k)).map (fun kv => kv.2)

/-- Walk of `logic.get_nested_value` (logic.py:259-265). -/
def getNestedGo : List Str → PyValue → Option PyValue
  | [], cur => some cur
  | p :: ps, cur =>
    match cur with
    | PyValue.dict entries =>
      match lookupStr p entries with
      | some v => getNestedGo ps v
      | Option.none => Option.none
    | _ => Option.none

/-- `logic.get_nested_value` (logic.py:242-265): dot-path lookup into a
parsed JSON value. -/
def get_nested_value (data : PyValue) (fieldPath : Str) : Option PyValue :=
  if fieldPath.isEmpty || !data.truthy then Option.none
  else getNestedGo (splitOnChar '.' fieldPath) data

/-- `logic.build_quotation_url` (logic.py:303-317). -/
def build_quotation_url (config : Config) (quoteId : PyValue) : Option Str :=
  if config.quotation_url_template.isEmpty || !quoteId.truthy then Option.none
  else some (replaceAll (phOf "quote_id".toList) (pyStr quoteId) config.quotation_url_template)

/-- Truthiness of an optional lookup result (`if not quote_id`). -/
def truthyOpt : Option PyValue → Bool
  | some v => v.truthy
  | Option.none => false

/-- Python `a or b` over optional lookup results: keeps the left value
when truthy. -/
def pyOrElse (a b : Option PyValue) : Option PyValue :=
  if truthyOpt a then a else b

/-- Outcome of the outbound HTTP call in `logic.request_fee_quotation`
(host `requests` library): timeout, transport/HTTP error
(`raise_for_status`), non-JSON body, or a parsed JSON response. -/
inductive ApiOutcome where
  | timeout
  | transportError (msg : Str)
  | invalidJson
  | ok (response : PyValue)

/-- `quotation.mark_error(...); return quotation` as used throughout
`logic.request_fee_quotation`. -/
def saveErr (db : DB) (q : Quotation) (msg : Str) : DB × Quotation :=
  let q := mark_error q msg
  (updateQuotation db q, q)

/-- The success tail of `logic.request_fee_quotation` (logic.py:432-433):
set `PRESENTED` and save. -/
def savePresented (db : DB) (q : Quotation) : DB × Quotation :=
  let q := { q with status := QStatus.presented }
  (updateQuotation db q, q)

/-- `logic.request_fee_quotation` (logic.py:320-452).

The request body is `render_template config.request_body_template ctx`
for the context built by `build_request_context`; whether that rendered
text parses as JSON (`json.loads`, logic.py:363) is supplied as the
`bodyParses` oracle, and the HTTP call outcome as `api`.  Custom header
parsing (logic.py:369-377) only affects the outbound call and logging. -/
def request_fee_quotation (db : DB) (article : Article) (authorId : Nat) (now : Nat)
    (bodyParses : Bool) (api : ApiOutcome) : DB × Quotation :=
  let res := get_or_create_quotation db article.pk authorId now
  let db := res.1
  let q := res.2
  if q.status == QStatus.presented || q.status == QStatus.accepted then (db, q)
  else
    match configFor db article.journalCode with
    | Option.none => saveErr db q "Fee quotation not configured for this journal.".toList
    | some config =>
      if !config.is_enabled then
        saveErr db q "Fee quotation is not enabled for this journal.".toList
      else if config.api_url.isEmpty then
        saveErr db q "Fee quotation API URL is not configured.".toList
      else if !bodyParses then
        -- source message: "Invalid request body template: {e}" with the parser diagnostic
        saveErr db q "Invalid request body template: ".toList
      else
        match api with
        | ApiOutcome.timeout => saveErr db q "Fee quotation API request timed out.".toList
        | ApiOutcome.transportError m => saveErr db q ("API request failed: ".toList ++ m)
        | ApiOutcome.invalidJson => saveErr db q "API response was not valid JSON.".toList
        | ApiOutcome.ok resp =>
          let q := { q with api_response := some resp }
          let quoteId := get_nested_value resp config.response_quote_id_field
          if !truthyOpt quoteId then
            -- source message also interpolates the configured field path and response
            saveErr db q ("API response did not contain quote ID in field ".toList
              ++ config.response_quote_id_field)
          else
            let quoteIdVal := quoteId.getD PyValue.none
            let q := { q with external_quote_id := some (pyStr quoteIdVal) }
            if !config.quotation_url_template.isEmpty then
              match build_quotation_url config quoteIdVal with
              | some url => savePresented db { q with quotation_url := some (PyValue.str url) }
              | Option.none => saveErr db q "Failed to build quotation URL from template.".toList
            else
              let fallback :=
                pyOrElse (get_nested_value resp "url".toList)
                  (pyOrElse (get_nested_value resp "quotation_url".toList)
                    (pyOrElse (get_nested_value resp "redirect_url".toList)
                      (get_nested_value resp "quote_url".toList)))
              if truthyOpt fallback then
                savePresented db { q with quotation_url := some (fallback.getD PyValue.none) }
              else
                saveErr db q
                  "No quotation URL template configured and API response did not contain a URL.".toList

/-- `FeeQuotationConfiguration.SECTION_MODE_ALL`. -/
def SECTION_MODE_ALL : Str := "all".toList

/-- `FeeQuotationConfiguration.SECTION_MODE_INCLUDE`. -/
def SECTION_MODE_INCLUDE : Str := "include".toList

/-- `FeeQuotationConfiguration.SECTION_MODE_EXCLUDE`. -/
def SECTION_MODE_EXCLUDE : Str := "exclude".toList

/-- `FeeQuotationConfiguration.requires_quotation_for_section`
(models.py:166-197). -/
def requires_quotation_for_section (config : Config) (sectionRef : Option Nat) : Bool :=
  if !config.is_enabled then false
  else
    match sectionRef with
    | Option.none => config.section_mode == SECTION_MODE_ALL
    | some sectionPk =>
      if config.section_mode == SECTION_MODE_ALL then true
      else
        let section_is_selected := config.selected_sections.contains sectionPk
        if config.section_mode == SECTION_MODE_INCLUDE then section_is_selected
        else if config.section_mode == SECTION_MODE_EXCLUDE then !section_is_selected
        else true

/-- `logic.is_quotation_required_for_article` (logic.py:455-475). -/
def is_quotation_required_for_article (db : DB) (article : Article) : Bool :=
  match configFor db article.journalCode with
  | Option.none => false
  | some config =>
    if !config.is_enabled then false
    else requires_quotation_for_section config article.sectionId

/-- `logic.is_quotation_required_for_section` (logic.py:478-497). -/
def is_quotation_required_for_section (db : DB) (journalCode : Str) (sectionRef : Option Nat) :
    Bool :=
  match configFor db journalCode with
  | Option.none => false
  | some config =>
    if !config.is_enabled then false
    else requires_quotation_for_section config sectionRef

/-- The statuses treated as active by `logic.void_article_quotations`
(logic.py:564-568) and `hooks.should_void_quotation` (hooks.py:111-115). -/
def activeStatuses : List QStatus :=
  [QStatus.pending, QStatus.requested, QStatus.presented]

/-- `logic.void_article_quotations` (logic.py:549-581): voids the active
quotations of the article and returns how many were voided. -/
def void_article_quotations (db : DB) (articleId : Nat) (reason : Option Str) : DB × Nat :=
  let isActive := fun (q : Quotation) =>
    q.articleId == articleId && activeStatuses.contains q.status
  let db' := { db with
    quotations := db.quotations.map (fun q => if isActive q then mark_voided q reason else q) }
  (db', (db.quotations.filter isActive).length)

/-- `logic.get_article_quotation` (logic.py:530-546). -/
def get_article_quotation (db : DB) (articleId : Nat) : Option Quotation :=
  newestByCreated (db.quotations.filter (fun q => q.articleId == articleId))

/-- `hooks.should_void_quotation` (hooks.py:88-135): `lastModified` is
the host `article.fast_last_modified_date()` (or the `last_modified`
fallback), `Option.none` when unavailable. -/
def should_void_quotation (q : Quotation) (lastModified : Option Nat) : Bool :=
  if !activeStatuses.contains q.status then false
  else
    match lastModified with
    | some t => t > q.created
    | Option.none => false

/-- The staleness check performed by `hooks.inject_fee_quotation_ui`
(hooks.py:56-65): void the article quotations when the newest one is
stale. -/
def hook_staleness_void (db : DB) (articleId : Nat) (lastModified : Option Nat) : DB :=
  match get_article_quotation db articleId with
  | Option.none => db
  | some q =>
    if should_void_quotation q lastModified then
      (void_article_quotations db articleId
        (some "Article was modified after quotation was requested.".toList)).1
    else db

/-! ## Webhook handler (`views.webhook_callback`, views.py:146-243)

The raw request body is a byte list; its JSON parse (`json.loads`,
views.py:192) is supplied as the `payload` oracle (`Option.none` for a
decode failure).  `hmac.compare_digest` is equality of the two digest
strings. -/

inductive WebhookResult where
  | invalidJournal
  | notConfigured
  | invalidSignature
  | invalidJson
  | missingQuoteId
  | notFound
  | unknownStatus (s : Str)
  | success (status : QStatus)
deriving DecidableEq, Repr

/-- The statuses excluded from webhook quotation lookup (views.py:214-220). -/
def webhookExcludedStatuses : List QStatus :=
  [QStatus.voided, QStatus.error, QStatus.expired]

/-- `views.webhook_callback` (views.py:146-243). -/
def webhook_callback (db : DB) (journalCode : Str) (rawBody : List Nat)
    (signature : Option Str) (payload : Option WebhookPayload) (now : Nat) :
    DB × WebhookResult :=
  if !db.journals.contains journalCode then (db, WebhookResult.invalidJournal)
  else
    match configFor db journalCode with
    | Option.none => (db, WebhookResult.notConfigured)
    | some config =>
      let sigCheckFails :=
        match signature with
        | some s =>
          if !config.webhook_secret.isEmpty && !s.isEmpty then
            s != hmacSha256Hex (utf8Encode config.webhook_secret) rawBody
          else false
        | Option.none => false
      if sigCheckFails then (db, WebhookResult.invalidSignature)
      else
        match payload with
        | Option.none => (db, WebhookResult.invalidJson)
        | some p =>
          let quoteIdOk := match p.quote_id with
            | some qid => !qid.isEmpty
            | Option.none => false
          if !quoteIdOk then (db, WebhookResult.missingQuoteId)
          else
            let qid := p.quote_id.getD []
            let candidates := db.quotations.filter (fun q =>
              q.external_quote_id == some qid &&
              articleJournal db q.articleId == some journalCode &&
              !webhookExcludedStatuses.contains q.status)
            match newestByCreated candidates with
            | Option.none => (db, WebhookResult.notFound)
            | some quotation =>
              let status := (p.status.getD []).map Char.toLower
              if status == "accepted".toList then
                let quotation := mark_accepted quotation (some p) now
                (updateQuotation db quotation, WebhookResult.success quotation.status)
              else if status == "declined".toList then
                let quotation := mark_declined quotation (some p) now
                (updateQuotation db quotation, WebhookResult.success quotation.status)
              else (db, WebhookResult.unknownStatus status)

/-! ## Author payload builder (`logic.py:20-178`) -/

/-- The address object of `logic.build_author_address` (logic.py:85-114). -/
structure AddressData where
  address1 : Str
  address2 : Str
  address3 : Str
  city : Str
  country : Str
  fax : Str
  phone : Str
  phoneExt : Str
  state : Str
  zip : Str
deriving DecidableEq, Repr

/-- An author entry of the outbound payload (`logic.build_author_data`,
logic.py:144-157).  Identifier lists hold `(type, value)` pairs. -/
structure AuthorData where
  address : AddressData
  authorIdentifiers : List (Str × Str)
  departmentName : Str
  emailAddress : Str
  firstName : Str
  institutionIdentifiers : List (Str × Str)
  institutionName : Str
  lastName : Str
  middleName : Str
  primary : Str
  salutation : Str
  suffix : Str
deriving DecidableEq, Repr

/-- `logic.build_author_identifiers` (logic.py:20-45). -/
def build_author_identifiers (fa : FrozenAuthorRec) : List (Str × Str) :=
  (if fa.pk != 0 then [("OTHER".toList, Nat.toDigits 10 fa.pk)] else []) ++
    (match fa.orcid with
     | some o => if o.isEmpty then [] else [("ORCID".toList, o)]
     | Option.none => [])

/-- `logic.build_institution_identifiers` (logic.py:48-82): the Ringgold
identifier is present only when the `ringgold_import` collaborator
supplies one (the `try/except` collapses every failure to absence). -/
def build_institution_identifiers (organization : Option Organization) : List (Str × Str) :=
  match organization with
  | Option.none => []
  | some org =>
    (match org.ror_id with
     | some r => if r.isEmpty then [] else [("ROR".toList, r)]
     | Option.none => []) ++
      (match org.ringgold_id with
       | some rid => if rid.isEmpty then [] else [("RINGGOLD".toList, rid)]
       | Option.none => [])

/-- `logic.build_author_address` (logic.py:85-114): only city and
country are ever populated, the country as the lower-cased code. -/
def build_author_address (affiliation : Option Affiliation) : AddressData :=
  let base : AddressData :=
    { address1 := [], address2 := [], address3 := [], city := [], country := []
      fax := [], phone := [], phoneExt := [], state := [], zip := [] }
  match affiliation with
  | some aff =>
    match aff.organization with
    | some org =>
      match org.location with
      | some loc =>
        { base with
          city := (loc.name.getD [])
          country := match loc.countryCode with
            | some code => if code.isEmpty then [] else code.map Char.toLower
            | Option.none => [] }
      | Option.none => base
    | Option.none => base
  | Option.none => base

/-- The primary-author test of `logic.build_author_data` (logic.py:134-142). -/
def isPrimaryAuthor (fa : FrozenAuthorRec) (article : Article) : Bool :=
  match article.correspondence_author, fa.author with
  | some corr, some acct => acct == corr
  | corr, _ => if fa.order == 1 then corr.isNone else false

/-- `logic.build_author_data` (logic.py:117-157). -/
def build_author_data (fa : FrozenAuthorRec) (article : Article) : AuthorData :=
  let aff := fa.primary_affiliation
  let organization := aff.bind Affiliation.organization
  { address := build_author_address aff
    authorIdentifiers := build_author_identifiers fa
    departmentName := match aff with
      | some a => a.department
      | Option.none => []
    emailAddress := fa.email.getD []
    firstName := fa.first_name.getD []
    institutionIdentifiers := build_institution_identifiers organization
    institutionName := match organization with
      | some org => org.displayName
      | Option.none => []
    lastName := fa.last_name.getD []
    middleName := fa.middle_name.getD []
    primary := if isPrimaryAuthor fa article then "true".toList else "false".toList
    salutation := ( FrozenAuthorRec.name_prefix fa).getD []
    suffix := fa.name_suffix.getD [] }

/-- `logic.build_authors_list` (logic.py:160-178): frozen authors
ordered by `("order", "pk")`, each mapped through `build_author_data`. -/
def build_authors_list (article : Article) : List AuthorData :=
  (article.frozen_authors.mergeSort (fun a b =>
      Nat.blt a.order b.order || (a.order == b.order && Nat.ble a.pk b.pk))).map
    (fun fa => build_author_data fa article)

/-! ## Auxiliary notions used to state the claims -/

/-- Whether a webhook request was accepted (reached a success response). -/
def WebhookResult.isSuccess : WebhookResult → Bool
  | WebhookResult.success _ => true
  | _ => false

/-- The status of the quotation row with primary key `i`. -/
def statusOf (db : DB) (i : Nat) : Option QStatus :=
  (db.quotations.find? (fun q => q.id == i)).map Quotation.status

/-- The full quotation row with primary key `i`. -/
def rowOf (db : DB) (i : Nat) : Option Quotation :=
  db.quotations.find? (fun q => q.id == i)

/-- Reachable database states: distinct primary keys, all below the
autoincrement counter. -/
def DBwf (db : DB) : Prop :=
  (db.quotations.map Quotation.id).Nodup ∧
    ∀ q ∈ db.quotations, q.id < db.nextQuotationId

/-- The statuses no operation ever transitions away from. -/
def hardTerminal : List QStatus := [QStatus.error, QStatus.expired, QStatus.voided]

/-- The replacement text used by `render_template` for a scalar context
value (logic.py:238). -/
def scalarText (v : PyValue) : Str :=
  if v.truthy then pyStr v else []

/-- Characters that are not braces, so they can neither open nor close a
placeholder. -/
def braceFree (s : Str) : Bool :=
  s.all (fun c => c != Char.ofNat 123 && c != Char.ofNat 125)

/-- A template segment: literal text or a placeholder `\x7b\x7bkey\x7d\x7d`.
Templates that are concatenations of brace-free literals and
placeholders over brace-free keys are the well-behaved fragment on
which sequential replacement acts placeholder-wise. -/
inductive Seg where
  | lit (s : Str)
  | ph (key : Str)
deriving DecidableEq, Repr

/-- The text of a segment. -/
def Seg.flat : Seg → Str
  | Seg.lit s => s
  | Seg.ph k => phOf k

/-- The template text denoted by a segment list. -/
def flattenSegs (segs : List Seg) : Str :=
  (segs.map Seg.flat).flatten

/-- Well-formed segment: brace-free literal text or a brace-free key. -/
def Seg.wfb : Seg → Bool
  | Seg.lit s => braceFree s
  | Seg.ph k => braceFree k

/-- Well-formed segment list. -/
def segsWF (segs : List Seg) : Bool := segs.all Seg.wfb

/-- A context is benign when its keys and every substituted text are
brace-free and all values are scalars. -/
def ctxOK (context : List (Str × PyValue)) : Bool :=
  context.all (fun kv =>
    braceFree kv.1 && !kv.2.isStructured && braceFree (scalarText kv.2))

/-- First binding of a key in a context list (dict keys are unique, so
this is the binding). -/
def lookupCtx (k : Str) (context : List (Str × PyValue)) : Option PyValue :=
  (context.find? (fun kv => kv.1 == k)).map (fun kv => kv.2)

/-- The effect of one `str.replace` pass for key `K` on a segment. -/
def substK (K : Str) (repl : Str) : Seg → Seg
  | Seg.lit l => Seg.lit l
  | Seg.ph k => if k == K then Seg.lit repl else Seg.ph k

/-- Independent (parallel) substitution of a whole context: each
placeholder is resolved from its own key's binding only. -/
def substSeg (context : List (Str × PyValue)) : Seg → Seg
  | Seg.lit l => Seg.lit l
  | Seg.ph k =>
    match lookupCtx k context with
    | some v => Seg.lit (scalarText v)
    | Option.none => Seg.ph k

/-! ## Concrete database instances used as test inputs -/

/-- A database with four quotations of one article in states pending,
presented, accepted and error. -/
def C6db : DB :=
  { journals := [], configs := [], articles := []
    quotations := [
      ⟨1, 1, some 1, QStatus.pending, Option.none, Option.none, Option.none,
        Option.none, Option.none, Option.none, 1, Option.none⟩,
      ⟨2, 1, some 1, QStatus.presented, Option.none, Option.none, Option.none,
        Option.none, Option.none, Option.none, 2, Option.none⟩,
      ⟨3, 1, some 1, QStatus.accepted, Option.none, Option.none, Option.none,
        Option.none, Option.none, Option.none, 3, Option.none⟩,
      ⟨4, 1, some 1, QStatus.error, Option.none, Option.none, Option.none,
        Option.none, Option.none, Option.none, 4, Option.none⟩]
    nextQuotationId := 5 }

/-- An enabled `include`-mode configuration selecting section 4. -/
def C5cfg : Config :=
  ⟨"j".toList, [], [], [], [], [], [], true, true, "include".toList, [4]⟩

/-- A database holding only `C5cfg`. -/
def C5db : DB :=
  { journals := ["j".toList], configs := [C5cfg], articles := [], quotations := []
    nextQuotationId := 0 }

/-- An article of journal `j` in section 4, with no authors. -/
def C5article : Article := Article.mk 1 "j".toList (some 4) Option.none []

/-- A database with journal `j` and nothing else. -/
def C7db : DB :=
  { journals := ["j".toList], configs := [], articles := [], quotations := []
    nextQuotationId := 0 }

/-- A database with two pending quotations for article 1 / author 1:
the older one (id 1) never expires, the newer one (id 2) expired at
time 3. -/
def C2db : DB :=
  { journals := [], configs := [], articles := []
    quotations := [
      ⟨1, 1, some 1, QStatus.pending, Option.none, Option.none, Option.none,
        Option.none, Option.none, Option.none, 1, Option.none⟩,
      ⟨2, 1, some 1, QStatus.pending, Option.none, Option.none, Option.none,
        Option.none, Option.none, Option.none, 2, some 3⟩]
    nextQuotationId := 3 }

/-- The empty database. -/
def emptyDb : DB :=
  { journals := [], configs := [], articles := [], quotations := []
    nextQuotationId := 0 }

/-- An enabled configuration for journal `j` with webhook secret `s`. -/
def C4cfg : Config :=
  ⟨"j".toList, [], [], [], [], [], "s".toList, true, true, "all".toList, []⟩

/-- A database with journal `j` and its configuration `C4cfg`. -/
def C4db : DB :=
  { journals := ["j".toList], configs := [C4cfg], articles := [], quotations := []
    nextQuotationId := 0 }

/-- A database with one accepted quotation (external quote id `Q1`) for
an article of journal `j`. -/
def C1db : DB :=
  { journals := ["j".toList], configs := [C4cfg]
    articles := [Article.mk 1 "j".toList Option.none Option.none []]
    quotations := [⟨1, 1, some 1, QStatus.accepted, some "Q1".toList, Option.none,
      Option.none, Option.none, Option.none, Option.none, 1, Option.none⟩]
    nextQuotationId := 2 }

/-- A database with one voided quotation (external quote id `Q1`) for an
article of journal `j`. -/
def C1vdb : DB :=
  { journals := ["j".toList], configs := [C4cfg]
    articles := [Article.mk 1 "j".toList Option.none Option.none []]
    quotations := [⟨1, 1, some 1, QStatus.voided, some "Q1".toList, Option.none,
      Option.none, Option.none, Option.none, Option.none, 1, Option.none⟩]
    nextQuotationId := 2 }

/-- An article whose designated corresponding author (account 5) is not
linked from its single frozen author. -/
def C9article : Article :=
  Article.mk 1 "j".toList Option.none (some 5)
    [⟨1, Option.none, 1, Option.none, Option.none, Option.none, Option.none,
      Option.none, Option.none, Option.none, Option.none⟩]

/-- An article whose designated corresponding author (account 5) is
linked from exactly one of its two frozen authors. -/
def C9articleOk : Article :=
  Article.mk 1 "j".toList Option.none (some 5)
    [⟨1, some 5, 1, Option.none, Option.none, Option.none, Option.none,
      Option.none, Option.none, Option.none, Option.none⟩,
     ⟨2, some 6, 2, Option.none, Option.none, Option.none, Option.none,
      Option.none, Option.none, Option.none, Option.none⟩]

/-! ## Lemmas about `replaceAll` and placeholders -/

theorem replaceAllGo_skip (pat repl : Str) (l s : Str) :
    replaceAllGo pat repl l.length (l ++ s) = replaceAllGo pat repl 0 s := by
  induction l with
  | nil => rfl
  | cons c t ih => simpa [replaceAllGo] using ih

theorem isPrefixOf_append_self (l t : Str) : l.isPrefixOf (l ++ t) = true :=
  List.isPrefixOf_iff_prefix.mpr (List.prefix_append l t)

theorem braceFree_cons {c : Char} {s : Str} (h : braceFree (c :: s) = true) :
    c ≠ Char.ofNat 123 ∧ c ≠ Char.ofNat 125 ∧ braceFree s = true := by
  have h' : ((c != Char.ofNat 123 && c != Char.ofNat 125) && braceFree s) = true := h
  simp only [Bool.and_eq_true, bne_iff_ne, ne_eq] at h'
  exact ⟨h'.1.1, h'.1.2, h'.2⟩

theorem braceFree_mem {s : Str} (h : braceFree s = true) {c : Char} (hc : c ∈ s) :
    c ≠ Char.ofNat 123 ∧ c ≠ Char.ofNat 125 := by
  simp only [braceFree, List.all_eq_true] at h
  simpa using h c hc

theorem key_close_not_prefixOf (K : Str) :
    ∀ (k rest : Str), braceFree K = true → braceFree k = true → K ≠ k →
      (K ++ [Char.ofNat 125, Char.ofNat 125]).isPrefixOf
        (k ++ Char.ofNat 125 :: Char.ofNat 125 :: rest) = false := by
  induction K with
  | nil =>
    intro k rest _ hk hne
    cases k with
    | nil => exact absurd rfl hne
    | cons c k' =>
      have hc := (braceFree_cons hk).2.1
      simp [List.isPrefixOf, beq_eq_false_iff_ne, Ne.symm hc]
  | cons a K' ih =>
    intro k rest hK hk hne
    have ha := (braceFree_cons hK).2.1
    cases k with
    | nil => simp [List.isPrefixOf, beq_eq_false_iff_ne, ha]
    | cons c k' =>
      by_cases hac : a = c
      · subst hac
        have hne' : K' ≠ k' := fun h => hne (by rw [h])
        simp [List.isPrefixOf, ih k' rest (braceFree_cons hK).2.2 (braceFree_cons hk).2.2 hne']
      · simp [List.isPrefixOf, beq_eq_false_iff_ne, hac]

theorem ph_not_prefixOf_ph_ne (K k rest : Str) (hK : braceFree K = true)
    (hk : braceFree k = true) (hne : K ≠ k) :
    (phOf K).isPrefixOf (phOf k ++ rest) = false := by
  have h := key_close_not_prefixOf K k rest hK hk hne
  simp [phOf, List.isPrefixOf, List.append_assoc]
  simpa using h

theorem lb_pat_not_prefixOf_keyTail (tail : Str) (k rest : Str) (hk : braceFree k = true) :
    (Char.ofNat 123 :: tail).isPrefixOf (k ++ Char.ofNat 125 :: Char.ofNat 125 :: rest)
      = false := by
  cases k with
  | nil => simp [List.isPrefixOf]
  | cons c k' =>
    have hc := (braceFree_cons hk).1
    simp [List.isPrefixOf, beq_eq_false_iff_ne, Ne.symm hc]

theorem replaceAllGo_lit_append (patTail repl : Str) (l s : Str)
    (hl : ∀ c ∈ l, c ≠ Char.ofNat 123) :
    replaceAllGo (Char.ofNat 123 :: patTail) repl 0 (l ++ s)
      = l ++ replaceAllGo (Char.ofNat 123 :: patTail) repl 0 s := by
  induction l with
  | nil => rfl
  | cons c t ih =>
    have hc : (Char.ofNat 123 :: patTail).isPrefixOf (c :: (t ++ s)) = false := by
      simp [List.isPrefixOf, beq_eq_false_iff_ne, Ne.symm (hl c (by simp))]
    simp only [List.cons_append, replaceAllGo, List.append_eq, hc, Bool.false_eq_true,
      if_false]
    exact congrArg (c :: ·) (ih (fun c hc => hl c (by simp [hc])))

theorem countSub_lit_append (patTail : Str) (l s : Str)
    (hl : ∀ c ∈ l, c ≠ Char.ofNat 123) :
    countSub (Char.ofNat 123 :: patTail) (l ++ s)
      = countSub (Char.ofNat 123 :: patTail) s := by
  induction l with
  | nil => rfl
  | cons c t ih =>
    have hc : (Char.ofNat 123 :: patTail).isPrefixOf (c :: (t ++ s)) = false := by
      simp [List.isPrefixOf, beq_eq_false_iff_ne, Ne.symm (hl c (by simp))]
    simp only [List.cons_append, countSub, List.append_eq, hc, Bool.false_eq_true,
      if_false]
    simpa using ih (fun c hc => hl c (by simp [hc]))

theorem replaceAllGo_ph_append (K k repl rest : Str) (hK : braceFree K = true)
    (hk : braceFree k = true) :
    replaceAllGo (phOf K) repl 0 (phOf k ++ rest)
      = if k = K then repl ++ replaceAllGo (phOf K) repl 0 rest
        else phOf k ++ replaceAllGo (phOf K) repl 0 rest := by
  by_cases hkK : k = K
  · subst hkK
    rw [if_pos rfl]
    have hshape : phOf k ++ rest
        = Char.ofNat 123 :: ((Char.ofNat 123 :: (k ++ [Char.ofNat 125, Char.ofNat 125])) ++ rest) := by
      simp [phOf]
    have hlen : (phOf k).length - 1
        = (Char.ofNat 123 :: (k ++ [Char.ofNat 125, Char.ofNat 125])).length := by
      simp [phOf]
    rw [hshape]
    rw [show replaceAllGo (phOf k) repl 0
        (Char.ofNat 123 :: ((Char.ofNat 123 :: (k ++ [Char.ofNat 125, Char.ofNat 125])) ++ rest))
      = if (phOf k).isPrefixOf (Char.ofNat 123 ::
            ((Char.ofNat 123 :: (k ++ [Char.ofNat 125, Char.ofNat 125])) ++ rest)) then
          repl ++ replaceAllGo (phOf k) repl ((phOf k).length - 1)
            ((Char.ofNat 123 :: (k ++ [Char.ofNat 125, Char.ofNat 125])) ++ rest)
        else Char.ofNat 123 :: replaceAllGo (phOf k) repl 0
            ((Char.ofNat 123 :: (k ++ [Char.ofNat 125, Char.ofNat 125])) ++ rest) from rfl]
    rw [show (Char.ofNat 123 ::
        ((Char.ofNat 123 :: (k ++ [Char.ofNat 125, Char.ofNat 125])) ++ rest))
      = phOf k ++ rest from by simp [phOf]]
    rw [isPrefixOf_append_self, if_pos rfl, hlen, replaceAllGo_skip]
  · rw [if_neg hkK]
    have hKk : K ≠ k := fun h => hkK h.symm
    have h0 := ph_not_prefixOf_ph_ne K k rest hK hk hKk
    have hmem : ∀ c ∈ k, c ≠ Char.ofNat 123 := fun c hc => (braceFree_mem hk hc).1
    have hshape : phOf k ++ rest
        = Char.ofNat 123 :: Char.ofNat 123 ::
            (k ++ (Char.ofNat 125 :: Char.ofNat 125 :: rest)) := by
      simp [phOf]
    have h1 : (phOf K).isPrefixOf (Char.ofNat 123 ::
        (k ++ (Char.ofNat 125 :: Char.ofNat 125 :: rest))) = false := by
      have := lb_pat_not_prefixOf_keyTail (K ++ [Char.ofNat 125, Char.ofNat 125]) k rest hk
      simp only [phOf, List.isPrefixOf, List.cons_append]
      simpa using this
    have h2 : (phOf K).isPrefixOf (Char.ofNat 125 :: Char.ofNat 125 :: rest) = false := by
      simp [phOf, List.isPrefixOf]
    have h3 : (phOf K).isPrefixOf (Char.ofNat 125 :: rest) = false := by
      simp [phOf, List.isPrefixOf]
    conv_lhs => rw [hshape]
    rw [show replaceAllGo (phOf K) repl 0 (Char.ofNat 123 :: Char.ofNat 123 ::
          (k ++ (Char.ofNat 125 :: Char.ofNat 125 :: rest)))
        = if (phOf K).isPrefixOf (Char.ofNat 123 :: Char.ofNat 123 ::
            (k ++ (Char.ofNat 125 :: Char.ofNat 125 :: rest))) then
            repl ++ replaceAllGo (phOf K) repl ((phOf K).length - 1)
              (Char.ofNat 123 :: (k ++ (Char.ofNat 125 :: Char.ofNat 125 :: rest)))
          else Char.ofNat 123 :: replaceAllGo (phOf K) repl 0
              (Char.ofNat 123 :: (k ++ (Char.ofNat 125 :: Char.ofNat 125 :: rest))) from rfl]
    rw [show (Char.ofNat 123 :: Char.ofNat 123 ::
          (k ++ (Char.ofNat 125 :: Char.ofNat 125 :: rest))) = phOf k ++ rest from by
        simp [phOf]]
    rw [h0, if_neg (by simp)]
    rw [show replaceAllGo (phOf K) repl 0 (Char.ofNat 123 ::
          (k ++ (Char.ofNat 125 :: Char.ofNat 125 :: rest)))
        = if (phOf K).isPrefixOf (Char.ofNat 123 ::
            (k ++ (Char.ofNat 125 :: Char.ofNat 125 :: rest))) then
            repl ++ replaceAllGo (phOf K) repl ((phOf K).length - 1)
              (k ++ (Char.ofNat 125 :: Char.ofNat 125 :: rest))
          else Char.ofNat 123 :: replaceAllGo (phOf K) repl 0
              (k ++ (Char.ofNat 125 :: Char.ofNat 125 :: rest)) from rfl]
    rw [h1, if_neg (by simp)]
    have hpat : phOf K = Char.ofNat 123 :: (Char.ofNat 123 :: (K ++ [Char.ofNat 125, Char.ofNat 125])) := by
      simp [phOf]
    rw [hpat, replaceAllGo_lit_append _ repl k _ hmem, ← hpat]
    rw [show replaceAllGo (phOf K) repl 0 (Char.ofNat 125 :: Char.ofNat 125 :: rest)
        = if (phOf K).isPrefixOf (Char.ofNat 125 :: Char.ofNat 125 :: rest) then
            repl ++ replaceAllGo (phOf K) repl ((phOf K).length - 1)
              (Char.ofNat 125 :: rest)
          else Char.ofNat 125 :: replaceAllGo (phOf K) repl 0 (Char.ofNat 125 :: rest)
        from rfl]
    rw [h2, if_neg (by simp)]
    rw [show replaceAllGo (phOf K) repl 0 (Char.ofNat 125 :: rest)
        = if (phOf K).isPrefixOf (Char.ofNat 125 :: rest) then
            repl ++ replaceAllGo (phOf K) repl ((phOf K).length - 1) rest
          else Char.ofNat 125 :: replaceAllGo (phOf K) repl 0 rest from rfl]
    rw [h3, if_neg (by simp)]
    simp [phOf]

theorem ph_not_prefixOf_inner (K k rest : Str) (hk : braceFree k = true) :
    (phOf K).isPrefixOf
      (Char.ofNat 123 :: (k ++ (Char.ofNat 125 :: Char.ofNat 125 :: rest))) = false := by
  have := lb_pat_not_prefixOf_keyTail (K ++ [Char.ofNat 125, Char.ofNat 125]) k rest hk
  simp only [phOf, List.isPrefixOf, List.cons_append]
  simpa using this

theorem ph_not_prefixOf_rb (K rest : Str) :
    (phOf K).isPrefixOf (Char.ofNat 125 :: rest) = false := by
  simp [phOf, List.isPrefixOf]

theorem countSub_ph_append (K k rest : Str) (hK : braceFree K = true)
    (hk : braceFree k = true) :
    countSub (phOf K) (phOf k ++ rest)
      = (if k = K then 1 else 0) + countSub (phOf K) rest := by
  have hmem : ∀ c ∈ k, c ≠ Char.ofNat 123 := fun c hc => (braceFree_mem hk hc).1
  have hlit : countSub (phOf K) (k ++ (Char.ofNat 125 :: Char.ofNat 125 :: rest))
      = countSub (phOf K) (Char.ofNat 125 :: Char.ofNat 125 :: rest) := by
    rw [show phOf K
        = Char.ofNat 123 :: (Char.ofNat 123 :: (K ++ [Char.ofNat 125, Char.ofNat 125]))
      from by simp [phOf]]
    exact countSub_lit_append _ k _ hmem
  have h1 := ph_not_prefixOf_inner K k rest hk
  have h2 := ph_not_prefixOf_rb K (Char.ofNat 125 :: rest)
  have h3 := ph_not_prefixOf_rb K rest
  have hshape : phOf k ++ rest
      = Char.ofNat 123 :: Char.ofNat 123 ::
          (k ++ (Char.ofNat 125 :: Char.ofNat 125 :: rest)) := by simp [phOf]
  rw [hshape]
  simp only [countSub, h1, hlit, h2, h3, Bool.false_eq_true, if_false, Nat.zero_add]
  congr 1
  by_cases hkK : k = K
  · subst hkK
    have : (phOf k).isPrefixOf (Char.ofNat 123 :: Char.ofNat 123 ::
        (k ++ (Char.ofNat 125 :: Char.ofNat 125 :: rest))) = true := by
      rw [← hshape]; exact isPrefixOf_append_self _ _
    simp [this]
  · have : (phOf K).isPrefixOf (Char.ofNat 123 :: Char.ofNat 123 ::
        (k ++ (Char.ofNat 125 :: Char.ofNat 125 :: rest))) = false := by
      rw [← hshape]
      exact ph_not_prefixOf_ph_ne K k rest hK hk (fun h => hkK h.symm)
    simp [this, hkK]

/-! ## Rendering over well-formed segment templates -/

theorem flattenSegs_nil : flattenSegs [] = [] := rfl

theorem flattenSegs_cons (s : Seg) (segs : List Seg) :
    flattenSegs (s :: segs) = Seg.flat s ++ flattenSegs segs := by
  simp [flattenSegs]

theorem segsWF_cons {s : Seg} {segs : List Seg} (h : segsWF (s :: segs) = true) :
    Seg.wfb s = true ∧ segsWF segs = true := by
  have h' : (Seg.wfb s && segsWF segs) = true := h
  simpa using h'

theorem replaceAll_flattenSegs (K repl : Str) (hK : braceFree K = true) :
    ∀ segs, segsWF segs = true →
      replaceAll (phOf K) repl (flattenSegs segs)
        = flattenSegs (segs.map (substK K repl)) := by
  intro segs
  induction segs with
  | nil => intro _; rfl
  | cons s t ih =>
    intro hwf
    obtain ⟨hs, ht⟩ := segsWF_cons hwf
    cases s with
    | lit l =>
      have hmem : ∀ c ∈ l, c ≠ Char.ofNat 123 := fun c hc => (braceFree_mem hs hc).1
      have hpat : phOf K
          = Char.ofNat 123 :: (Char.ofNat 123 :: (K ++ [Char.ofNat 125, Char.ofNat 125])) := by
        simp [phOf]
      rw [List.map_cons, flattenSegs_cons, flattenSegs_cons]
      show replaceAllGo (phOf K) repl 0 (Seg.flat (Seg.lit l) ++ flattenSegs t) = _
      rw [show Seg.flat (Seg.lit l) = l from rfl, show substK K repl (Seg.lit l) = Seg.lit l from rfl,
        show Seg.flat (Seg.lit l) = l from rfl, hpat, replaceAllGo_lit_append _ repl l _ hmem,
        ← hpat]
      exact congrArg (l ++ ·) (ih ht)
    | ph k =>
      rw [List.map_cons, flattenSegs_cons, flattenSegs_cons]
      show replaceAllGo (phOf K) repl 0 (Seg.flat (Seg.ph k) ++ flattenSegs t) = _
      rw [show Seg.flat (Seg.ph k) = phOf k from rfl,
        replaceAllGo_ph_append K k repl (flattenSegs t) hK hs]
      by_cases hkK : k = K
      · subst hkK
        rw [if_pos rfl, show substK k repl (Seg.ph k) = Seg.lit repl from by
          simp [substK]]
        exact congrArg (repl ++ ·) (ih ht)
      · rw [if_neg hkK, show substK K repl (Seg.ph k) = Seg.ph k from by
          simp [substK, hkK]]
        exact congrArg (phOf k ++ ·) (ih ht)

theorem countSub_flattenSegs (K : Str) (hK : braceFree K = true) :
    ∀ segs, segsWF segs = true →
      countSub (phOf K) (flattenSegs segs)
        = segs.countP (fun s => s == Seg.ph K) := by
  intro segs
  induction segs with
  | nil => intro _; rfl
  | cons s t ih =>
    intro hwf
    obtain ⟨hs, ht⟩ := segsWF_cons hwf
    cases s with
    | lit l =>
      have hmem : ∀ c ∈ l, c ≠ Char.ofNat 123 := fun c hc => (braceFree_mem hs hc).1
      rw [flattenSegs_cons, show Seg.flat (Seg.lit l) = l from rfl,
        show countSub (phOf K) (l ++ flattenSegs t) = countSub (phOf K) (flattenSegs t) from by
          rw [show phOf K = Char.ofNat 123 ::
              (Char.ofNat 123 :: (K ++ [Char.ofNat 125, Char.ofNat 125])) from by simp [phOf]]
          exact countSub_lit_append _ l _ hmem,
        ih ht, List.countP_cons]
      simp
    | ph k =>
      rw [flattenSegs_cons, show Seg.flat (Seg.ph k) = phOf k from rfl,
        countSub_ph_append K k (flattenSegs t) hK hs, ih ht, List.countP_cons]
      by_cases hkK : k = K
      · subst hkK; simp [Nat.add_comm]
      · simp [hkK, Seg.ph.injEq]

theorem substSeg_nil (s : Seg) : substSeg [] s = s := by
  cases s <;> simp [substSeg, lookupCtx]

theorem ctxOK_cons {K : Str} {v : PyValue} {ctx : List (Str × PyValue)}
    (h : ctxOK ((K, v) :: ctx) = true) :
    braceFree K = true ∧ v.isStructured = false ∧ braceFree (scalarText v) = true ∧
      ctxOK ctx = true := by
  have h' : ((braceFree K && !v.isStructured && braceFree (scalarText v)) && ctxOK ctx)
      = true := h
  simp only [Bool.and_eq_true, Bool.not_eq_true'] at h'
  exact ⟨h'.1.1.1, h'.1.1.2, h'.1.2, h'.2⟩

theorem segsWF_map_substK (K r : Str) (hr : braceFree r = true) :
    ∀ segs, segsWF segs = true → segsWF (segs.map (substK K r)) = true := by
  intro segs
  induction segs with
  | nil => intro _; rfl
  | cons s t ih =>
    intro hwf
    obtain ⟨hs, ht⟩ := segsWF_cons hwf
    have hs' : Seg.wfb (substK K r s) = true := by
      cases s with
      | lit l => exact hs
      | ph k =>
        by_cases hkK : k == K
        · simp [substK, hkK, Seg.wfb, hr]
        · simp only [substK, hkK, Bool.false_eq_true, if_false]
          exact hs
    have : segsWF (substK K r s :: (t.map (substK K r))) = true := by
      have := ih ht
      simp [segsWF, List.all_cons, hs', this]
      exact (by simpa [segsWF] using this)
    simpa using this

theorem substSeg_cons (K : Str) (v : PyValue) (ctx : List (Str × PyValue)) (s : Seg) :
    substSeg ctx (substK K (scalarText v) s) = substSeg ((K, v) :: ctx) s := by
  cases s with
  | lit l => rfl
  | ph k =>
    by_cases hkK : k = K
    · subst hkK
      simp [substK, substSeg, lookupCtx]
    · have h1 : (k == K) = false := by simp [hkK]
      have h2 : (K == k) = false := beq_eq_false_iff_ne.mpr (fun h => hkK h.symm)
      simp [substK, substSeg, lookupCtx, h1, h2, List.find?]

theorem render_template_flattenSegs :
    ∀ (context : List (Str × PyValue)) (segs : List Seg),
      ctxOK context = true → segsWF segs = true →
      render_template (flattenSegs segs) context
        = flattenSegs (segs.map (substSeg context)) := by
  intro context
  induction context with
  | nil =>
    intro segs _ _
    have hmap : segs.map (substSeg []) = segs := by
      have h1 : segs.map (substSeg []) = segs.map id :=
        List.map_congr_left (fun s _ => substSeg_nil s)
      rw [h1, List.map_id]
    show flattenSegs segs = flattenSegs (segs.map (substSeg []))
    rw [hmap]
  | cons kv ctx ih =>
    intro segs hctx hsegs
    obtain ⟨K, v⟩ := kv
    obtain ⟨hK, hv, hr, hctx'⟩ := ctxOK_cons hctx
    have hstep : render_template (flattenSegs segs) ((K, v) :: ctx)
        = render_template (renderStep (flattenSegs segs) K v) ctx := rfl
    have hscalar : renderStep (flattenSegs segs) K v
        = replaceAll (phOf K) (scalarText v) (flattenSegs segs) := by
      simp [renderStep, hv, scalarText]
    rw [hstep, hscalar, replaceAll_flattenSegs K (scalarText v) hK segs hsegs,
      ih (segs.map (substK K (scalarText v))) hctx' (segsWF_map_substK K _ hr segs hsegs),
      List.map_map]
    exact congrArg flattenSegs (List.map_congr_left (fun s _ => substSeg_cons K v ctx s))

theorem ctxOK_filter (p : Str × PyValue → Bool) (ctx : List (Str × PyValue))
    (h : ctxOK ctx = true) : ctxOK (ctx.filter p) = true := by
  simp only [ctxOK, List.all_eq_true] at *
  intro kv hkv
  exact h kv (List.mem_of_mem_filter hkv)

theorem lookupCtx_filter_self (K : Str) (ctx : List (Str × PyValue)) :
    lookupCtx K (ctx.filter (fun kv => kv.1 == K)) = lookupCtx K ctx := by
  unfold lookupCtx
  congr 1
  induction ctx with
  | nil => rfl
  | cons kv t ih =>
    cases h : (kv.1 == K) with
    | true => simp [List.filter_cons, List.find?_cons, h]
    | false => simpa [List.filter_cons, List.find?_cons, h] using ih

theorem ctxOK_lookup {ctx : List (Str × PyValue)} {k : Str} {v : PyValue}
    (h : ctxOK ctx = true) (hl : lookupCtx k ctx = some v) :
    v.isStructured = false ∧ braceFree (scalarText v) = true := by
  simp only [lookupCtx, Option.map_eq_some'] at hl
  obtain ⟨kv, hfind, hv⟩ := hl
  have hmem := List.mem_of_find?_eq_some hfind
  simp only [ctxOK, List.all_eq_true] at h
  have := h kv hmem
  simp only [Bool.and_eq_true, Bool.not_eq_true'] at this
  exact hv ▸ ⟨this.1.2, this.2⟩

theorem segsWF_map_substSeg (ctx : List (Str × PyValue)) (segs : List Seg)
    (hctx : ctxOK ctx = true) (hsegs : segsWF segs = true) :
    segsWF (segs.map (substSeg ctx)) = true := by
  simp only [segsWF, List.all_map, List.all_eq_true] at *
  intro s hs
  have hwf := hsegs s hs
  cases s with
  | lit l => exact hwf
  | ph k =>
    show Seg.wfb (substSeg ctx (Seg.ph k)) = true
    cases hlk : lookupCtx k ctx with
    | none => simpa [substSeg, hlk] using hwf
    | some v =>
      have := (ctxOK_lookup hctx hlk).2
      simpa [substSeg, hlk, Seg.wfb] using this

theorem countP_ph_map_substSeg (K : Str) (ctx : List (Str × PyValue)) (segs : List Seg) :
    (segs.map (substSeg ctx)).countP (fun s => s == Seg.ph K)
      = match lookupCtx K ctx with
        | some _ => 0
        | Option.none => segs.countP (fun s => s == Seg.ph K) := by
  rw [List.countP_map]
  cases hK : lookupCtx K ctx with
  | some v =>
    rw [List.countP_eq_zero.mpr]
    intro s _
    cases s with
    | lit l => simp [substSeg]
    | ph k =>
      cases hlk : lookupCtx k ctx with
      | some w => simp [Function.comp, substSeg, hlk]
      | none =>
        have hne : k ≠ K := fun h => by rw [h, hK] at hlk; cases hlk
        simp [Function.comp, substSeg, hlk, hne]
  | none =>
    apply List.countP_congr
    intro s _
    cases s with
    | lit l => simp [substSeg]
    | ph k =>
      cases hlk : lookupCtx k ctx with
      | some w =>
        have hne : k ≠ K := fun h => by rw [h, hK] at hlk; cases hlk
        simp [Function.comp, substSeg, hlk, hne]
      | none => simp [Function.comp, substSeg, hlk]

/-! ## Claim C8 -/

/-- C8 counterexample: the claim fails as stated.  With the template
`\x7b\x7ba\x7d\x7d` and context `\x7bb: "X", a: "\x7b\x7bb\x7d\x7d"\x7d`,
substituting `a` injects an occurrence of `\x7b\x7bb\x7d\x7d` into the
output (one occurrence), while substituting `b` alone leaves none. -/
theorem C8_counterexample :
    countSub (phOf ['b'])
        (render_template (phOf ['a'])
          [(['b'], PyValue.str ['X']), (['a'], PyValue.str (phOf ['b']))]) = 1 ∧
    countSub (phOf ['b'])
        (render_template (phOf ['a']) [(['b'], PyValue.str ['X'])]) = 0 := by
  exact ⟨by decide, by decide⟩

/-- C8 (amended): sequential substitution is interference-free on the
well-behaved fragment: when the template is a concatenation of
brace-free literals and placeholders with brace-free keys, and every
context value is a scalar whose substituted text is brace-free,
rendering equals independent per-placeholder substitution — each
placeholder is resolved from its own key's binding only — and the
occurrences of `\x7b\x7bK'\x7d\x7d` in the output are exactly those
produced by substituting `K'` alone. -/
theorem C8_render_independent_substitution
    (segs : List Seg) (context : List (Str × PyValue)) (K' : Str)
    (hsegs : segsWF segs = true) (hctx : ctxOK context = true)
    (hK' : braceFree K' = true) :
    render_template (flattenSegs segs) context
        = flattenSegs (segs.map (substSeg context)) ∧
    countSub (phOf K') (render_template (flattenSegs segs) context)
        = countSub (phOf K')
            (render_template (flattenSegs segs)
              (context.filter (fun kv => kv.1 == K'))) := by
  refine ⟨render_template_flattenSegs context segs hctx hsegs, ?_⟩
  rw [render_template_flattenSegs context segs hctx hsegs,
    render_template_flattenSegs (context.filter (fun kv => kv.1 == K')) segs
      (ctxOK_filter _ _ hctx) hsegs,
    countSub_flattenSegs K' hK' _ (segsWF_map_substSeg context segs hctx hsegs),
    countSub_flattenSegs K' hK' _
      (segsWF_map_substSeg _ segs (ctxOK_filter _ _ hctx) hsegs),
    countP_ph_map_substSeg, countP_ph_map_substSeg, lookupCtx_filter_self]

/-- C8 witness: the amended theorem applied to the template
`a \x7b\x7bx\x7d\x7d \x7b\x7by\x7d\x7d` with context
`\x7bx: "1", y: 2\x7d` and key `y`. -/
theorem C8_witness :
    segsWF [Seg.lit ['a', ' '], Seg.ph ['x'], Seg.lit [' '], Seg.ph ['y']] = true ∧
    ctxOK [(['x'], PyValue.str ['1']), (['y'], PyValue.int 2)] = true ∧
    braceFree ['y'] = true ∧
    (render_template
        (flattenSegs [Seg.lit ['a', ' '], Seg.ph ['x'], Seg.lit [' '], Seg.ph ['y']])
        [(['x'], PyValue.str ['1']), (['y'], PyValue.int 2)]
      = flattenSegs
          ([Seg.lit ['a', ' '], Seg.ph ['x'], Seg.lit [' '], Seg.ph ['y']].map
            (substSeg [(['x'], PyValue.str ['1']), (['y'], PyValue.int 2)])) ∧
     countSub (phOf ['y'])
        (render_template
          (flattenSegs [Seg.lit ['a', ' '], Seg.ph ['x'], Seg.lit [' '], Seg.ph ['y']])
          [(['x'], PyValue.str ['1']), (['y'], PyValue.int 2)])
      = countSub (phOf ['y'])
          (render_template
            (flattenSegs [Seg.lit ['a', ' '], Seg.ph ['x'], Seg.lit [' '], Seg.ph ['y']])
            ([(['x'], PyValue.str ['1']), (['y'], PyValue.int 2)].filter
              (fun kv => kv.1 == ['y'])))) :=
  ⟨by decide, by decide, by decide,
    C8_render_independent_substitution _ _ _ (by decide) (by decide) (by decide)⟩

/-! ## Claim C3 -/

/-- C3 counterexample: the claim fails as stated.  With the template
`"\x7b\x7bv\x7d\x7d" \x7b\x7bv\x7d\x7d` and `v ↦ [1]`, only the quoted
occurrence is replaced and the unquoted occurrence of the mapped name
survives; moreover the claim's own example renders to
`\x7b"x": [1, 2]\x7d` (with the `json.dumps` item separator `", "`),
not `\x7b"x": [1,2]\x7d`. -/
theorem C3_counterexample :
    render_template (quotedPhOf ['v'] ++ (' ' :: phOf ['v']))
        [(['v'], PyValue.list [PyValue.int 1])]
      = ('[' :: '1' :: ']' :: ' ' :: phOf ['v']) ∧
    containsSub (phOf ['v'])
      (render_template (quotedPhOf ['v'] ++ (' ' :: phOf ['v']))
        [(['v'], PyValue.list [PyValue.int 1])]) = true ∧
    render_template "\x7b\x22x\x22: \x22\x7b\x7bv\x7d\x7d\x22\x7d".toList
        [("v".toList, PyValue.list [PyValue.int 1, PyValue.int 2])]
      = "\x7b\x22x\x22: [1, 2]\x7d".toList ∧
    "\x7b\x22x\x22: [1, 2]\x7d".toList ≠ "\x7b\x22x\x22: [1,2]\x7d".toList :=
  ⟨by decide, by decide, by decide, by decide⟩

/-- C3 (amended): for each mapped name, a structured (list/dict) value
is JSON-serialised (with `", "` item separators); when the quoted
placeholder `"\x7b\x7bname\x7d\x7d"` occurs in the text the quoted
occurrences are replaced (quotes removed) and unquoted occurrences are
left, otherwise the unquoted occurrences are replaced; scalar values
replace every occurrence of the bare placeholder with their rendered
text; the claim's example renders to `\x7b"x": [1, 2]\x7d`. -/
theorem C3_render_template_amended :
    (∀ (t k : Str) (v : PyValue), v.isStructured = true →
      containsSub (quotedPhOf k) t = true →
      render_template t [(k, v)] = replaceAll (quotedPhOf k) (jsonDumps v) t) ∧
    (∀ (t k : Str) (v : PyValue), v.isStructured = true →
      containsSub (quotedPhOf k) t = false →
      render_template t [(k, v)] = replaceAll (phOf k) (jsonDumps v) t) ∧
    (∀ (t k : Str) (v : PyValue), v.isStructured = false →
      render_template t [(k, v)] = replaceAll (phOf k) (scalarText v) t) ∧
    render_template "\x7b\x22x\x22: \x22\x7b\x7bv\x7d\x7d\x22\x7d".toList
        [("v".toList, PyValue.list [PyValue.int 1, PyValue.int 2])]
      = "\x7b\x22x\x22: [1, 2]\x7d".toList := by
  refine ⟨?_, ?_, ?_, by decide⟩
  · intro t k v hv hq
    simp [render_template, renderStep, hv, hq]
  · intro t k v hv hq
    simp [render_template, renderStep, hv, hq]
  · intro t k v hv
    simp [render_template, renderStep, hv, scalarText]

/-- C3 witness: the quoted-structured branch of the amended theorem at
template `"\x7b\x7bv\x7d\x7d"` with `v ↦ [5]`. -/
theorem C3_witness :
    (PyValue.list [PyValue.int 5]).isStructured = true ∧
    containsSub (quotedPhOf ['v']) (quotedPhOf ['v']) = true ∧
    render_template (quotedPhOf ['v']) [(['v'], PyValue.list [PyValue.int 5])]
      = replaceAll (quotedPhOf ['v']) (jsonDumps (PyValue.list [PyValue.int 5]))
          (quotedPhOf ['v']) :=
  ⟨by decide, by decide,
    C3_render_template_amended.1 (quotedPhOf ['v']) ['v']
      (PyValue.list [PyValue.int 5]) (by decide) (by decide)⟩

/-! ## Claim C10 -/

/-- C10: a falsy scalar context value — `None`, `0`, `False` or the
empty string — is substituted as the empty string, not as its `str`
form (logic.py:238). -/
theorem C10_falsy_scalar_renders_empty (t k : Str) (v : PyValue)
    (h1 : v.isStructured = false) (h2 : v.truthy = false) :
    render_template t [(k, v)] = replaceAll (phOf k) [] t := by
  simp [render_template, renderStep, h1, h2]

/-- C10 witness: rendering `a\x7b\x7bk\x7d\x7db` with `k ↦ 0` removes
the placeholder entirely. -/
theorem C10_witness :
    (PyValue.int 0).isStructured = false ∧ (PyValue.int 0).truthy = false ∧
    render_template ('a' :: phOf ['k'] ++ ['b']) [(['k'], PyValue.int 0)]
      = replaceAll (phOf ['k']) [] ('a' :: phOf ['k'] ++ ['b']) ∧
    render_template ('a' :: phOf ['k'] ++ ['b']) [(['k'], PyValue.int 0)] = ['a', 'b'] :=
  ⟨by decide, by decide,
    C10_falsy_scalar_renders_empty ('a' :: phOf ['k'] ++ ['b']) ['k'] (PyValue.int 0)
      (by decide) (by decide), by decide⟩

/-! ## Claim C5 -/

/-- C5: the section-based requirement rules.  With no configuration or a
disabled configuration the check is false; when enabled, mode `all`
requires a quotation for every section including an absent one, mode
`include` exactly for the selected sections, mode `exclude` exactly for
the non-selected sections, and an absent section is required only under
mode `all`. -/
theorem C5_section_requirement_rules (db : DB) (article : Article) :
    (configFor db article.journalCode = Option.none →
      is_quotation_required_for_article db article = false) ∧
    (∀ config, configFor db article.journalCode = some config →
      (config.is_enabled = false →
        is_quotation_required_for_article db article = false) ∧
      (config.is_enabled = true → config.section_mode = SECTION_MODE_ALL →
        is_quotation_required_for_article db article = true) ∧
      (config.is_enabled = true → config.section_mode = SECTION_MODE_INCLUDE →
        is_quotation_required_for_article db article
          = match article.sectionId with
            | some s => config.selected_sections.contains s
            | Option.none => false) ∧
      (config.is_enabled = true → config.section_mode = SECTION_MODE_EXCLUDE →
        is_quotation_required_for_article db article
          = match article.sectionId with
            | some s => !config.selected_sections.contains s
            | Option.none => false)) := by
  refine ⟨fun h => by simp [is_quotation_required_for_article, h], ?_⟩
  intro config hc
  refine ⟨fun he => by simp [is_quotation_required_for_article, hc, he], ?_, ?_, ?_⟩
  · intro he hm
    cases hs : article.sectionId <;>
      simp [is_quotation_required_for_article, hc, he, hs,
        requires_quotation_for_section, hm]
  · intro he hm
    cases hs : article.sectionId <;>
      simp [is_quotation_required_for_article, hc, he, hs,
        requires_quotation_for_section, hm, SECTION_MODE_INCLUDE, SECTION_MODE_ALL,
        SECTION_MODE_EXCLUDE]
  · intro he hm
    cases hs : article.sectionId <;>
      simp [is_quotation_required_for_article, hc, he, hs,
        requires_quotation_for_section, hm, SECTION_MODE_INCLUDE, SECTION_MODE_ALL,
        SECTION_MODE_EXCLUDE]

/-- C5 witness: an enabled `include`-mode configuration selecting
section 4, evaluated on an article in section 4. -/
theorem C5_witness :
    configFor C5db C5article.journalCode = some C5cfg ∧
    is_quotation_required_for_article C5db C5article
      = match C5article.sectionId with
        | some s => C5cfg.selected_sections.contains s
        | Option.none => false :=
  ⟨rfl,
    ((C5_section_requirement_rules C5db C5article).2 C5cfg (by rfl)).2.2.1 rfl rfl⟩

/-! ## Claim C6 -/

theorem mark_voided_status (q : Quotation) (reason : Option Str) :
    (mark_voided q reason).status = QStatus.voided := by
  unfold mark_voided
  cases reason with
  | none => rfl
  | some r =>
    by_cases h : r.isEmpty <;> simp [h]

/-- C6: `void_article_quotations` transitions exactly the article's
quotations with an active status (pending/requested/presented) to
`voided`, leaves every other stored quotation entirely unchanged, and
returns the number of quotations it transitioned. -/
theorem C6_void_exactly_active (db : DB) (articleId : Nat) (reason : Option Str) :
    (void_article_quotations db articleId reason).1.quotations.length
        = db.quotations.length ∧
    (∀ (i : Nat) (hi : i < db.quotations.length)
        (hi' : i < (void_article_quotations db articleId reason).1.quotations.length),
      ((db.quotations.get ⟨i, hi⟩).articleId = articleId ∧
          (db.quotations.get ⟨i, hi⟩).status ∈ activeStatuses →
        ((void_article_quotations db articleId reason).1.quotations.get ⟨i, hi'⟩).status
          = QStatus.voided) ∧
      (¬((db.quotations.get ⟨i, hi⟩).articleId = articleId ∧
          (db.quotations.get ⟨i, hi⟩).status ∈ activeStatuses) →
        (void_article_quotations db articleId reason).1.quotations.get ⟨i, hi'⟩
          = db.quotations.get ⟨i, hi⟩)) ∧
    (void_article_quotations db articleId reason).2
      = db.quotations.countP (fun q =>
          q.articleId == articleId && activeStatuses.contains q.status) := by
  refine ⟨by simp [void_article_quotations], ?_, by
    simp [void_article_quotations, List.countP_eq_length_filter]⟩
  intro i hi hi'
  have hmap : (void_article_quotations db articleId reason).1.quotations.get ⟨i, hi'⟩
      = (fun q => if q.articleId == articleId && activeStatuses.contains q.status
          then mark_voided q reason else q) (db.quotations.get ⟨i, hi⟩) := by
    simp [void_article_quotations, List.get_eq_getElem, List.getElem_map]
  constructor
  · intro hpos
    have hcond : ((db.quotations.get ⟨i, hi⟩).articleId == articleId &&
        activeStatuses.contains (db.quotations.get ⟨i, hi⟩).status) = true := by
      simp only [Bool.and_eq_true, beq_iff_eq]
      exact ⟨hpos.1, by simpa using hpos.2⟩
    rw [hmap]
    dsimp only
    split
    · exact mark_voided_status _ _
    · rename_i hfalse
      exact absurd hcond hfalse
  · intro hneg
    have hcond : ((db.quotations.get ⟨i, hi⟩).articleId == articleId &&
        activeStatuses.contains (db.quotations.get ⟨i, hi⟩).status) = false := by
      rw [Bool.and_eq_false_iff]
      by_cases ha : (db.quotations.get ⟨i, hi⟩).articleId = articleId
      · refine Or.inr ?_
        have hact : (db.quotations.get ⟨i, hi⟩).status ∉ activeStatuses :=
          fun hmem => hneg ⟨ha, hmem⟩
        simpa using hact
      · exact Or.inl (by simpa using ha)
    rw [hmap]
    dsimp only
    split
    · rename_i htrue
      rw [hcond] at htrue
      cases htrue
    · rfl

/-- C6 witness: on `C6db` (quotations in pending, presented, accepted
and error state) exactly the first two are voided and the count is 2. -/
theorem C6_witness :
    (void_article_quotations C6db 1 Option.none).2
        = C6db.quotations.countP (fun q =>
            q.articleId == 1 && activeStatuses.contains q.status) ∧
    (void_article_quotations C6db 1 Option.none).2 = 2 ∧
    (void_article_quotations C6db 1 Option.none).1.quotations.map Quotation.status
      = [QStatus.voided, QStatus.voided, QStatus.accepted, QStatus.error] :=
  ⟨(C6_void_exactly_active C6db 1 Option.none).2.2, by decide, by decide⟩

/-! ## Claim C7 -/

/-- C7: whenever the webhook handler rejects a request (any non-success
outcome: unknown journal, missing configuration, bad signature,
malformed JSON, missing quote id, no matching quotation, unknown
status), the stored database is returned unchanged — no quotation row
is mutated. -/
theorem C7_webhook_reject_no_mutation
    (db : DB) (journalCode : Str) (rawBody : List Nat) (signature : Option Str)
    (payload : Option WebhookPayload) (now : Nat) (db' : DB) (r : WebhookResult)
    (h : webhook_callback db journalCode rawBody signature payload now = (db', r))
    (hr : r.isSuccess = false) : db' = db := by
  unfold webhook_callback at h
  repeat
    first
    | (cases h; rfl)
    | (cases h; simp [WebhookResult.isSuccess] at hr)
    | split at h
    | dsimp only at h

/-- C7 witness: a webhook call on a journal with no configuration is
rejected and leaves the database unchanged. -/
theorem C7_witness :
    (webhook_callback C7db "j".toList [] Option.none Option.none 0).1 = C7db :=
  C7_webhook_reject_no_mutation C7db "j".toList [] Option.none Option.none 0
    (webhook_callback C7db "j".toList [] Option.none Option.none 0).1
    (webhook_callback C7db "j".toList [] Option.none Option.none 0).2
    rfl (by decide)

/-! ## Claim C2 -/

theorem newestByCreated_mem {l : List Quotation} {q : Quotation}
    (h : newestByCreated l = some q) : q ∈ l := by
  have aux : ∀ (l : List Quotation) (acc : Option Quotation),
      l.foldl
        (fun acc q =>
          match acc with
          | Option.none => some q
          | some a => if q.created > a.created then some q else acc) acc = some q →
      q ∈ l ∨ acc = some q := by
    intro l
    induction l with
    | nil => intro acc h; exact Or.inr h
    | cons x t ih =>
      intro acc h
      rcases ih _ h with hmem | hacc
      · exact Or.inl (List.mem_cons_of_mem _ hmem)
      · cases acc with
        | none =>
          have : x = q := by simpa using hacc
          exact Or.inl (this ▸ List.mem_cons_self x t)
        | some a =>
          by_cases hgt : x.created > a.created
          · have : x = q := by simpa [hgt] using hacc
            exact Or.inl (this ▸ List.mem_cons_self x t)
          · have : some a = some q := by simpa [hgt] using hacc
            exact Or.inr this
  rcases aux l Option.none h with hmem | hacc
  · exact hmem
  · cases hacc

theorem newestByCreated_append_last {l : List Quotation} {x : Quotation}
    (hlt : ∀ q ∈ l, q.created < x.created) :
    newestByCreated (l ++ [x]) = some x := by
  unfold newestByCreated
  rw [List.foldl_append]
  cases h0 : newestByCreated l with
  | none =>
    rw [show List.foldl
        (fun acc q =>
          match acc with
          | Option.none => some q
          | some a => if q.created > a.created then some q else acc) Option.none l
      = newestByCreated l from rfl, h0]
    rfl
  | some a =>
    rw [show List.foldl
        (fun acc q =>
          match acc with
          | Option.none => some q
          | some a => if q.created > a.created then some q else acc) Option.none l
      = newestByCreated l from rfl, h0]
    have := hlt a (newestByCreated_mem h0)
    simp [List.foldl, this]

theorem get_or_create_cases (db : DB) (articleId authorId now : Nat) :
    (∃ e, get_or_create_quotation db articleId authorId now = (db, e) ∧
      newestByCreated (db.quotations.filter (fun q =>
        q.articleId == articleId && q.authorId == some authorId &&
        reusableStatuses.contains q.status)) = some e ∧
      is_expired e now = false ∧ e ∈ db.quotations ∧
      e.articleId = articleId ∧ e.authorId = some authorId ∧
      e.status ∈ reusableStatuses) ∨
    get_or_create_quotation db articleId authorId now
      = createPendingQuotation db articleId authorId now := by
  unfold get_or_create_quotation
  dsimp only
  cases hn : newestByCreated (db.quotations.filter (fun q =>
      q.articleId == articleId && q.authorId == some authorId &&
      reusableStatuses.contains q.status)) with
  | none => exact Or.inr rfl
  | some e =>
    by_cases hexp : is_expired e now
    · simp only [hexp, Bool.not_true, Bool.false_eq_true, if_false]
      exact Or.inr (by first | rfl | trivial)
    · have hexp' : is_expired e now = false := by simpa using hexp
      have hmemf := newestByCreated_mem hn
      have hmem := List.mem_of_mem_filter hmemf
      have hpred := List.of_mem_filter hmemf
      simp only [Bool.and_eq_true, beq_iff_eq] at hpred
      refine Or.inl ⟨e, ?_, rfl, hexp', hmem, hpred.1.1, hpred.1.2, ?_⟩
      · simp [hexp']
      · simpa using hpred.2

/-- C2 counterexample: the claim fails as stated.  In `C2db` the
quotation with id 1 is a non-expired candidate in a reusable status, yet
`get_or_create_quotation` creates and returns a fresh record (id 3)
because only the newest candidate (id 2, expired) has its expiry
checked. -/
theorem C2_counterexample :
    (get_or_create_quotation C2db 1 1 5).2.id = 3 ∧
    (get_or_create_quotation C2db 1 1 5).2.status = QStatus.pending ∧
    C2db.quotations.map Quotation.id = [1, 2] ∧
    C2db.quotations.map Quotation.articleId = [1, 1] ∧
    C2db.quotations.map Quotation.authorId = [some 1, some 1] ∧
    C2db.quotations.map Quotation.status = [QStatus.pending, QStatus.pending] ∧
    C2db.quotations.map (fun q => is_expired q 5) = [false, true] :=
  ⟨by decide, by decide, by decide, by decide, by decide, by decide, by decide⟩

/-- C2 (amended): `get_or_create_quotation` returns the newest
quotation of the pair in a reusable status ({pending, requested,
presented, accepted}) provided that newest one is not expired;
otherwise — also when that newest candidate is expired, even if an
older candidate is not — it creates and returns a fresh `pending`
record; calling it twice with no intervening failure or expiry returns
the same record both times. -/
theorem C2_get_or_create_amended :
    (∀ (db : DB) (articleId authorId now : Nat) (e : Quotation),
      newestByCreated (db.quotations.filter (fun q =>
        q.articleId == articleId && q.authorId == some authorId &&
        reusableStatuses.contains q.status)) = some e →
      is_expired e now = false →
      get_or_create_quotation db articleId authorId now = (db, e)) ∧
    (∀ (db : DB) (articleId authorId now : Nat),
      (match newestByCreated (db.quotations.filter (fun q =>
          q.articleId == articleId && q.authorId == some authorId &&
          reusableStatuses.contains q.status)) with
        | some e => is_expired e now = true
        | Option.none => True) →
      get_or_create_quotation db articleId authorId now
        = createPendingQuotation db articleId authorId now ∧
      (createPendingQuotation db articleId authorId now).2.status = QStatus.pending ∧
      (createPendingQuotation db articleId authorId now).2.id = db.nextQuotationId ∧
      (createPendingQuotation db articleId authorId now).1.quotations
        = db.quotations ++ [(createPendingQuotation db articleId authorId now).2]) ∧
    (∀ (db : DB) (articleId authorId now now2 : Nat) (db1 : DB) (r : Quotation),
      (∀ q ∈ db.quotations, q.created < now) →
      get_or_create_quotation db articleId authorId now = (db1, r) →
      is_expired r now2 = false →
      get_or_create_quotation db1 articleId authorId now2 = (db1, r)) := by
  refine ⟨?_, ?_, ?_⟩
  · intro db articleId authorId now e hn hexp
    unfold get_or_create_quotation
    dsimp only
    rw [hn]
    simp [hexp]
  · intro db articleId authorId now hm
    refine ⟨?_, rfl, rfl, rfl⟩
    unfold get_or_create_quotation
    dsimp only
    cases hn : newestByCreated (db.quotations.filter (fun q =>
        q.articleId == articleId && q.authorId == some authorId &&
        reusableStatuses.contains q.status)) with
    | none => rfl
    | some e =>
      rw [hn] at hm
      simp [hm]

  · intro db articleId authorId now now2 db1 r hlt hcall hexp2
    rcases get_or_create_cases db articleId authorId now with
      ⟨e, heq, hn, _, _, _, _, _⟩ | heq
    · rw [heq] at hcall
      have hdb : db1 = db := congrArg Prod.fst hcall.symm
      have hr : r = e := congrArg Prod.snd hcall.symm
      subst hdb
      unfold get_or_create_quotation
      dsimp only
      rw [hn, ← hr]
      simp [hexp2]
    · rw [heq] at hcall
      have hdb : db1 = (createPendingQuotation db articleId authorId now).1 :=
        congrArg Prod.fst hcall.symm
      have hr : r = (createPendingQuotation db articleId authorId now).2 :=
        congrArg Prod.snd hcall.symm
      subst hdb
      subst hr
      unfold get_or_create_quotation
      dsimp only
      have hfilter : (createPendingQuotation db articleId authorId now).1.quotations.filter
          (fun q => q.articleId == articleId && q.authorId == some authorId &&
            reusableStatuses.contains q.status)
          = (db.quotations.filter (fun q =>
              q.articleId == articleId && q.authorId == some authorId &&
              reusableStatuses.contains q.status))
            ++ [(createPendingQuotation db articleId authorId now).2] := by
        show (db.quotations ++ [(createPendingQuotation db articleId authorId now).2]).filter _
            = _
        rw [List.filter_append]
        simp [createPendingQuotation, reusableStatuses]
      rw [hfilter, newestByCreated_append_last (fun q hq =>
        hlt q (List.mem_of_mem_filter hq))]
      simp [hexp2]

/-- C2 witness: on the empty database, a call at time 7 creates a fresh
record and an immediately repeated call at time 8 returns the very same
record and leaves the database unchanged. -/
theorem C2_witness :
    (∀ q ∈ emptyDb.quotations, q.created < 7) ∧
    is_expired (get_or_create_quotation emptyDb 1 1 7).2 8 = false ∧
    get_or_create_quotation (get_or_create_quotation emptyDb 1 1 7).1 1 1 8
      = ((get_or_create_quotation emptyDb 1 1 7).1,
         (get_or_create_quotation emptyDb 1 1 7).2) :=
  ⟨by simp [emptyDb], by decide,
    C2_get_or_create_amended.2.2 emptyDb 1 1 7 8
      (get_or_create_quotation emptyDb 1 1 7).1
      (get_or_create_quotation emptyDb 1 1 7).2
      (by simp [emptyDb]) rfl (by decide)⟩

/-! ## Claim C4 -/

set_option maxRecDepth 100000 in
/-- C4 counterexample: the claim fails as stated.  With secret `s`
configured and the signature header *present but empty*, the handler
skips verification entirely (`if config.webhook_secret and signature:`)
and proceeds past the signature check — here to the JSON-parse
rejection — even though the empty signature does not equal the HMAC. -/
theorem C4_counterexample :
    webhook_callback C4db "j".toList [123, 125] (some []) Option.none 0
      = (C4db, WebhookResult.invalidJson) ∧
    ([] : Str) ≠ hmacSha256Hex (utf8Encode C4cfg.webhook_secret) [123, 125] :=
  ⟨rfl, by decide⟩

/-- C4 (amended): when a webhook secret is configured and a *non-empty*
signature header is present, the handler rejects with the
bad-signature error exactly when the header differs from the lowercase
hex HMAC-SHA256 of the raw body under the secret; an empty signature
header (like an absent one) skips verification. -/
theorem C4_webhook_signature_amended
    (db : DB) (journalCode : Str) (rawBody : List Nat) (now : Nat)
    (s : Str) (payload : Option WebhookPayload) (config : Config)
    (hj : db.journals.contains journalCode = true)
    (hc : configFor db journalCode = some config)
    (hsec : config.webhook_secret ≠ [])
    (hs : s ≠ []) :
    ((webhook_callback db journalCode rawBody (some s) payload now).2
        = WebhookResult.invalidSignature
      ↔ s ≠ hmacSha256Hex (utf8Encode config.webhook_secret) rawBody) := by
  have h1 : config.webhook_secret.isEmpty = false := by
    cases hcase : config.webhook_secret with
    | nil => exact absurd hcase hsec
    | cons a l => rfl
  have h2 : s.isEmpty = false := by
    cases hcase : s with
    | nil => exact absurd hcase hs
    | cons a l => rfl
  unfold webhook_callback
  simp only [hj, Bool.not_true, Bool.false_eq_true, if_false, hc]
  try dsimp only
  simp only [h1, h2, Bool.not_false, Bool.and_self, if_true]
  by_cases heq : s = hmacSha256Hex (utf8Encode config.webhook_secret) rawBody
  · have hb : (s != hmacSha256Hex (utf8Encode config.webhook_secret) rawBody) = false := by
      simp [heq]
    simp only [hb, Bool.false_eq_true, if_false]
    constructor
    · intro habs
      cases payload with
      | none => simp at habs
      | some p =>
        dsimp only at habs
        repeat
          first
          | (simp at habs)
          | (split at habs)
    · intro habs
      exact absurd heq habs
  · have hb : (s != hmacSha256Hex (utf8Encode config.webhook_secret) rawBody) = true :=
      bne_iff_ne.mpr heq
    simp only [hb, if_true]
    simpa using heq

set_option maxRecDepth 100000 in
/-- C4 witness: the amended theorem on `C4db` with the wrong signature
`ab`, which is rejected as an invalid signature. -/
theorem C4_witness :
    C4db.journals.contains "j".toList = true ∧
    configFor C4db "j".toList = some C4cfg ∧
    C4cfg.webhook_secret ≠ [] ∧
    ("ab".toList : Str) ≠ [] ∧
    ((webhook_callback C4db "j".toList [123, 125] (some "ab".toList) Option.none 0).2
        = WebhookResult.invalidSignature
      ↔ "ab".toList ≠ hmacSha256Hex (utf8Encode C4cfg.webhook_secret) [123, 125]) :=
  ⟨rfl, rfl, by decide, by decide,
    C4_webhook_signature_amended C4db "j".toList [123, 125] 0 "ab".toList Option.none
      C4cfg rfl rfl (by decide) (by decide)⟩

/-! ## Claim C9 -/

theorem countP_build_authors_list (article : Article) (p : AuthorData → Bool) :
    (build_authors_list article).countP p
      = article.frozen_authors.countP (fun fa => p (build_author_data fa article)) := by
  unfold build_authors_list
  rw [List.countP_map]
  exact (List.mergeSort_perm article.frozen_authors _).countP_eq _

/-- C9 counterexample: the claim fails as stated.  `C9article` has a
designated corresponding author (account 5) that no frozen author
links, and its only frozen author has a null account link, so the
payload marks zero entries primary instead of exactly one. -/
theorem C9_counterexample :
    (build_authors_list C9article).countP (fun a => a.primary == "true".toList) = 0 ∧
    C9article.correspondence_author = some 5 ∧
    C9article.frozen_authors.length = 1 := by
  refine ⟨?_, rfl, rfl⟩
  rw [countP_build_authors_list]
  decide

/-- C9 (amended): an author entry is marked `primary="true"` exactly
when its frozen author's linked account equals the article's
designated corresponding author, or no corresponding author is
designated and the frozen author has order 1.  Hence exactly one entry
is primary whenever exactly one frozen author satisfies that condition
(in particular, when the corresponding account is linked by exactly
one frozen author, or none is designated and exactly one author has
order 1); when the corresponding author is not linked by any frozen
author, no entry is primary. -/
theorem C9_primary_author_amended :
    (∀ (fa : FrozenAuthorRec) (article : Article),
      (build_author_data fa article).primary = "true".toList ↔
        ((∃ c, article.correspondence_author = some c ∧ fa.author = some c) ∨
          (article.correspondence_author = Option.none ∧ fa.order = 1))) ∧
    (∀ article : Article,
      article.frozen_authors.countP (fun fa => isPrimaryAuthor fa article) = 1 →
      (build_authors_list article).countP (fun a => a.primary == "true".toList) = 1) := by
  have hchar : ∀ (fa : FrozenAuthorRec) (article : Article),
      isPrimaryAuthor fa article = true ↔
        ((∃ c, article.correspondence_author = some c ∧ fa.author = some c) ∨
          (article.correspondence_author = Option.none ∧ fa.order = 1)) := by
    intro fa article
    unfold isPrimaryAuthor
    cases hcorr : article.correspondence_author with
    | some corr =>
      cases hauth : fa.author with
      | some acct => simp [hauth]
      | none =>
        by_cases hord : fa.order = 1 <;> simp [hord]
    | none =>
      cases hauth : fa.author with
      | some acct =>
        by_cases hord : fa.order = 1 <;> simp [hord]
      | none =>
        by_cases hord : fa.order = 1 <;> simp [hord]
  have hflag : ∀ (fa : FrozenAuthorRec) (article : Article),
      ((build_author_data fa article).primary == "true".toList)
        = isPrimaryAuthor fa article := by
    intro fa article
    show ((if isPrimaryAuthor fa article then "true".toList else "false".toList)
        == "true".toList) = isPrimaryAuthor fa article
    by_cases h : isPrimaryAuthor fa article <;> simp [h]
  refine ⟨?_, ?_⟩
  · intro fa article
    rw [show (build_author_data fa article).primary
        = (if isPrimaryAuthor fa article then "true".toList else "false".toList) from rfl]
    by_cases h : isPrimaryAuthor fa article
    · simp only [h, if_true]
      simpa [h] using (hchar fa article)
    · have h' : isPrimaryAuthor fa article = false := by simpa using h
      simp only [h', Bool.false_eq_true, if_false]
      constructor
      · intro habs
        exact absurd habs (by decide)
      · intro hr
        exact absurd ((hchar fa article).mpr hr) (by simp [h'])
  · intro article hcount
    rw [countP_build_authors_list]
    rw [List.countP_congr (fun fa _ => by rw [hflag fa article])]
    exact hcount

/-- C9 witness: on `C9articleOk` exactly one frozen author links the
corresponding account, and the payload marks exactly one entry
primary. -/
theorem C9_witness :
    C9articleOk.frozen_authors.countP
        (fun fa => isPrimaryAuthor fa C9articleOk) = 1 ∧
    (build_authors_list C9articleOk).countP
        (fun a => a.primary == "true".toList) = 1 :=
  ⟨by decide, C9_primary_author_amended.2 C9articleOk (by decide)⟩

/-! ## Claim C1: row-level frame lemmas -/

theorem find?_quotation_map {l : List Quotation} {f : Quotation → Quotation}
    (hf : ∀ q, (f q).id = q.id) (i : Nat) :
    (l.map f).find? (fun q => q.id == i) = (l.find? (fun q => q.id == i)).map f := by
  induction l with
  | nil => rfl
  | cons x t ih =>
    cases h : (x.id == i) with
    | true => simp [List.find?_cons, hf, h]
    | false => simpa [List.find?_cons, hf, h] using ih

theorem statusOf_eq_rowOf (db : DB) (i : Nat) :
    statusOf db i = (rowOf db i).map Quotation.status := rfl

theorem rowOf_update (db : DB) (q' : Quotation) (i : Nat) :
    rowOf (updateQuotation db q') i
      = (rowOf db i).map (fun q => if q.id == q'.id then q' else q) := by
  unfold rowOf updateQuotation
  apply find?_quotation_map
  intro q
  by_cases h : (q.id == q'.id) = true
  · simp only [h, if_true]
    exact (beq_iff_eq.mp h).symm
  · simp only [h, Bool.false_eq_true, if_false]

theorem mem_of_rowOf {db : DB} {i : Nat} {q₀ : Quotation}
    (h : rowOf db i = some q₀) : q₀ ∈ db.quotations :=
  List.mem_of_find?_eq_some h

theorem statusOf_update_of_ne {db : DB} {q' : Quotation} {i : Nat} {q₀ : Quotation}
    (h : rowOf db i = some q₀) (hne : q₀.id ≠ q'.id) :
    statusOf (updateQuotation db q') i = some q₀.status := by
  rw [statusOf_eq_rowOf, rowOf_update, h]
  have hb : (q₀.id == q'.id) = false := by simpa using hne
  simp [hb, hne]

theorem statusOf_update_of_eq {db : DB} {q' : Quotation} {i : Nat} {q₀ : Quotation}
    (h : rowOf db i = some q₀) (heq : q₀.id = q'.id) :
    statusOf (updateQuotation db q') i = some q'.status := by
  rw [statusOf_eq_rowOf, rowOf_update, h]
  simp [heq]

theorem nodup_id_eq {db : DB} (hwf : DBwf db) {a b : Quotation}
    (ha : a ∈ db.quotations) (hb : b ∈ db.quotations) (hid : a.id = b.id) : a = b :=
  List.inj_on_of_nodup_map hwf.1 ha hb hid

theorem webhook_callback_db_cases (db : DB) (jc : Str) (rawBody : List Nat)
    (sig : Option Str) (payload : Option WebhookPayload) (now : Nat) :
    (webhook_callback db jc rawBody sig payload now).1 = db ∨
    ∃ p target,
      payload = some p ∧
      target ∈ db.quotations ∧
      webhookExcludedStatuses.contains target.status = false ∧
      (((webhook_callback db jc rawBody sig payload now).1
          = updateQuotation db (mark_accepted target (some p) now)) ∨
       ((webhook_callback db jc rawBody sig payload now).1
          = updateQuotation db (mark_declined target (some p) now))) := by
  conv_lhs => unfold webhook_callback
  conv_rhs => unfold webhook_callback
  split
  · exact Or.inl rfl
  · split
    · exact Or.inl rfl
    · dsimp only
      split
      · exact Or.inl rfl
      · split
        · exact Or.inl rfl
        · rename_i p
          try dsimp only
          split
          · exact Or.inl rfl
          · split
            · exact Or.inl rfl
            · rename_i target hn
              have hmemf := newestByCreated_mem hn
              have hmem := List.mem_of_mem_filter hmemf
              have hpred := List.of_mem_filter hmemf
              simp only [Bool.and_eq_true, Bool.not_eq_true'] at hpred
              split
              · exact Or.inr ⟨p, target, rfl, hmem, hpred.2, Or.inl rfl⟩
              · split
                · exact Or.inr ⟨p, target, rfl, hmem, hpred.2, Or.inr rfl⟩
                · exact Or.inl rfl

theorem webhook_preserves_excluded (db : DB) (jc : Str) (rawBody : List Nat)
    (sig : Option Str) (payload : Option WebhookPayload) (now : Nat) (i : Nat)
    (s : QStatus) (hwf : DBwf db) (h : statusOf db i = some s)
    (hs : webhookExcludedStatuses.contains s = true) :
    statusOf (webhook_callback db jc rawBody sig payload now).1 i = some s := by
  rcases webhook_callback_db_cases db jc rawBody sig payload now with
    hdb | ⟨p, target, _, hmem, hcont, hupd⟩
  · rw [hdb]; exact h
  · obtain ⟨q₀, hq₀, hqs⟩ := Option.map_eq_some'.mp (statusOf_eq_rowOf db i ▸ h)
    have hne : q₀.id ≠ target.id := by
      intro hcontra
      have := nodup_id_eq hwf (mem_of_rowOf hq₀) hmem hcontra
      rw [this] at hqs
      rw [hqs] at hcont
      rw [hcont] at hs
      cases hs
    rcases hupd with hu | hu <;>
      (rw [hu]; rw [statusOf_update_of_ne hq₀ (by simpa using hne), hqs])

theorem webhook_accepted_declined (db : DB) (jc : Str) (rawBody : List Nat)
    (sig : Option Str) (payload : Option WebhookPayload) (now : Nat) (i : Nat)
    (s : QStatus) (h : statusOf db i = some s)
    (hs : s = QStatus.accepted ∨ s = QStatus.declined) :
    ∃ s', statusOf (webhook_callback db jc rawBody sig payload now).1 i = some s' ∧
      (s' = QStatus.accepted ∨ s' = QStatus.declined) := by
  rcases webhook_callback_db_cases db jc rawBody sig payload now with
    hdb | ⟨p, target, _, hmem, _, hupd⟩
  · exact ⟨s, by rw [hdb]; exact h, hs⟩
  · obtain ⟨q₀, hq₀, hqs⟩ := Option.map_eq_some'.mp (statusOf_eq_rowOf db i ▸ h)
    by_cases hid : q₀.id = target.id
    · rcases hupd with hu | hu
      · refine ⟨QStatus.accepted, ?_, Or.inl rfl⟩
        rw [hu]
        exact statusOf_update_of_eq hq₀
          (show q₀.id = (mark_accepted target (some p) now).id from hid)
      · refine ⟨QStatus.declined, ?_, Or.inr rfl⟩
        rw [hu]
        exact statusOf_update_of_eq hq₀
          (show q₀.id = (mark_declined target (some p) now).id from hid)
    · refine ⟨s, ?_, hs⟩
      rcases hupd with hu | hu <;>
        (rw [hu, statusOf_update_of_ne hq₀ (by simpa using hid), hqs])

theorem mark_voided_id (q : Quotation) (reason : Option Str) :
    (mark_voided q reason).id = q.id := by
  unfold mark_voided
  cases reason with
  | none => rfl
  | some r => by_cases h : r.isEmpty <;> simp [h]

theorem void_preserves_nonactive (db : DB) (articleId : Nat) (reason : Option Str)
    (i : Nat) (s : QStatus) (h : statusOf db i = some s)
    (hs : activeStatuses.contains s = false) :
    statusOf (void_article_quotations db articleId reason).1 i = some s := by
  obtain ⟨q₀, hq₀, hqs⟩ := Option.map_eq_some'.mp (statusOf_eq_rowOf db i ▸ h)
  have hrow : rowOf (void_article_quotations db articleId reason).1 i
      = (rowOf db i).map (fun q =>
          if q.articleId == articleId && activeStatuses.contains q.status
          then mark_voided q reason else q) := by
    unfold rowOf void_article_quotations
    dsimp only
    apply find?_quotation_map
    intro q
    by_cases hc : (q.articleId == articleId && activeStatuses.contains q.status) = true
    · simp only [hc, if_true]
      exact mark_voided_id q reason
    · simp only [hc, Bool.false_eq_true, if_false]
  rw [statusOf_eq_rowOf, hrow, hq₀]
  have hc : (q₀.articleId == articleId && activeStatuses.contains q₀.status) = false := by
    rw [hqs, hs, Bool.and_false]
  rw [Option.map_some']
  try dsimp only
  simp only [hc, Bool.false_eq_true, if_false]
  simp [hqs]

theorem staleness_preserves_nonactive (db : DB) (articleId : Nat)
    (lastModified : Option Nat) (i : Nat) (s : QStatus)
    (h : statusOf db i = some s) (hs : activeStatuses.contains s = false) :
    statusOf (hook_staleness_void db articleId lastModified) i = some s := by
  unfold hook_staleness_void
  split
  · exact h
  · split
    · exact void_preserves_nonactive db articleId _ i s h hs
    · exact h

theorem goc_preserves (db : DB) (articleId authorId now i : Nat) (s : QStatus)
    (h : statusOf db i = some s) :
    statusOf (get_or_create_quotation db articleId authorId now).1 i = some s := by
  rcases get_or_create_cases db articleId authorId now with ⟨e, heq, _⟩ | heq
  · rw [heq]; exact h
  · rw [heq]
    obtain ⟨q₀, hq₀, hqs⟩ := Option.map_eq_some'.mp (statusOf_eq_rowOf db i ▸ h)
    rw [statusOf_eq_rowOf]
    show (((db.quotations ++ [(createPendingQuotation db articleId authorId now).2]).find?
        (fun q => q.id == i)).map Quotation.status) = some s
    rw [List.find?_append]
    rw [show db.quotations.find? (fun q => q.id == i) = some q₀ from hq₀]
    simp [hqs]

theorem request_db_cases (db : DB) (article : Article) (authorId now : Nat)
    (bodyParses : Bool) (api : ApiOutcome) :
    ∃ db1 q, get_or_create_quotation db article.pk authorId now = (db1, q) ∧
      ((request_fee_quotation db article authorId now bodyParses api).1 = db1 ∨
       (q.status ≠ QStatus.presented ∧ q.status ≠ QStatus.accepted ∧
        ∃ qq, (request_fee_quotation db article authorId now bodyParses api).1
            = updateQuotation db1 qq ∧ qq.id = q.id)) := by
  refine ⟨(get_or_create_quotation db article.pk authorId now).1,
    (get_or_create_quotation db article.pk authorId now).2, rfl, ?_⟩
  unfold request_fee_quotation
  try dsimp only
  split
  · exact Or.inl rfl
  · rename_i hsc
    have h1 : (get_or_create_quotation db article.pk authorId now).2.status
          ≠ QStatus.presented ∧
        (get_or_create_quotation db article.pk authorId now).2.status
          ≠ QStatus.accepted := by
      simpa [not_or] using hsc
    refine Or.inr ⟨h1.1, h1.2, ?_⟩
    repeat
      first
      | exact ⟨_, rfl, rfl⟩
      | split
      | dsimp only

theorem request_preserves (db : DB) (article : Article) (authorId now : Nat)
    (bodyParses : Bool) (api : ApiOutcome) (i : Nat) (s : QStatus)
    (hwf : DBwf db) (h : statusOf db i = some s)
    (hp : s ≠ QStatus.pending) (hr : s ≠ QStatus.requested) :
    statusOf (request_fee_quotation db article authorId now bodyParses api).1 i
      = some s := by
  obtain ⟨db1, q, hgoc, hcase⟩ := request_db_cases db article authorId now bodyParses api
  rcases hcase with hdb | ⟨hnp, hna, qq, hupd, hid⟩
  · rw [hdb, show db1 = (get_or_create_quotation db article.pk authorId now).1 from
      (congrArg Prod.fst hgoc).symm]
    exact goc_preserves db article.pk authorId now i s h
  · rw [hupd]
    obtain ⟨q₀, hq₀, hqs⟩ := Option.map_eq_some'.mp h
    rcases get_or_create_cases db article.pk authorId now with
      ⟨e, heq, _, _, hmem, _, _, hst⟩ | heq
    · have hdb1 : db1 = db := by rw [heq] at hgoc; exact (congrArg Prod.fst hgoc).symm
      have hqe : q = e := by rw [heq] at hgoc; exact (congrArg Prod.snd hgoc).symm
      have hqstat : e.status = QStatus.pending ∨ e.status = QStatus.requested := by
        have h2 := hst
        simp only [reusableStatuses, List.mem_cons, List.not_mem_nil, or_false] at h2
        rcases h2 with h' | h' | h' | h'
        · exact Or.inl h'
        · exact Or.inr h'
        · exact absurd (by rw [hqe]; exact h') hnp
        · exact absurd (by rw [hqe]; exact h') hna
      have hne : q₀.id ≠ qq.id := by
        rw [hid, hqe]
        intro hcontra
        have heqq : q₀ = e := nodup_id_eq hwf (mem_of_rowOf hq₀) hmem hcontra
        rcases hqstat with h' | h'
        · exact hp (by rw [← hqs, heqq]; exact h')
        · exact hr (by rw [← hqs, heqq]; exact h')
      rw [hdb1, statusOf_update_of_ne hq₀ hne, hqs]
    · have hdb1 : db1 = (createPendingQuotation db article.pk authorId now).1 := by
        rw [heq] at hgoc; exact (congrArg Prod.fst hgoc).symm
      have hqf : q = (createPendingQuotation db article.pk authorId now).2 := by
        rw [heq] at hgoc; exact (congrArg Prod.snd hgoc).symm
      have hq₀₁ : rowOf (createPendingQuotation db article.pk authorId now).1 i
          = some q₀ := by
        unfold rowOf
        show ((db.quotations
            ++ [(createPendingQuotation db article.pk authorId now).2]).find?
          (fun r => r.id == i)) = some q₀
        rw [List.find?_append]
        rw [show db.quotations.find? (fun r => r.id == i) = some q₀ from hq₀]
        rfl
      have hne : q₀.id ≠ qq.id := by
        rw [hid, hqf]
        show q₀.id ≠ db.nextQuotationId
        exact Nat.ne_of_lt (hwf.2 q₀ (mem_of_rowOf hq₀))
      rw [hdb1, statusOf_update_of_ne hq₀₁ hne, hqs]

/-- C1 counterexample: the claim fails as stated.  `C1db` holds a single
quotation in the terminal state `accepted`; a webhook callback carrying
its quote id with status `declined` transitions it to `declined`. -/
theorem C1_counterexample :
    C1db.quotations.map Quotation.status = [QStatus.accepted] ∧
    (webhook_callback C1db "j".toList [] Option.none
        (some ⟨some "Q1".toList, some "declined".toList⟩) 9).2
      = WebhookResult.success QStatus.declined ∧
    ((webhook_callback C1db "j".toList [] Option.none
        (some ⟨some "Q1".toList, some "declined".toList⟩) 9).1.quotations.map
      Quotation.status) = [QStatus.declined] :=
  ⟨rfl, rfl, rfl⟩

/-- C1 (amended): quotations in the states `error`, `expired` and
`voided` are never transitioned by any modeled operation (webhook
handler, quotation service, staleness voiding).  Quotations in
`accepted` or `declined` are never touched by the quotation service or
the staleness voiding either, but the webhook handler may re-transition
them, only ever between `accepted` and `declined` (last write wins). -/
theorem C1_terminal_statuses_amended :
    (∀ (db : DB) (jc : Str) (rawBody : List Nat) (sig : Option Str)
        (payload : Option WebhookPayload) (now i : Nat) (s : QStatus), DBwf db →
      statusOf db i = some s → s ∈ hardTerminal →
      statusOf (webhook_callback db jc rawBody sig payload now).1 i = some s) ∧
    (∀ (db : DB) (jc : Str) (rawBody : List Nat) (sig : Option Str)
        (payload : Option WebhookPayload) (now i : Nat) (s : QStatus),
      statusOf db i = some s → (s = QStatus.accepted ∨ s = QStatus.declined) →
      ∃ s', statusOf (webhook_callback db jc rawBody sig payload now).1 i = some s' ∧
        (s' = QStatus.accepted ∨ s' = QStatus.declined)) ∧
    (∀ (db : DB) (articleId : Nat) (reason : Option Str) (i : Nat) (s : QStatus),
      statusOf db i = some s → s ∉ activeStatuses →
      statusOf (void_article_quotations db articleId reason).1 i = some s) ∧
    (∀ (db : DB) (articleId : Nat) (lastModified : Option Nat) (i : Nat) (s : QStatus),
      statusOf db i = some s → s ∉ activeStatuses →
      statusOf (hook_staleness_void db articleId lastModified) i = some s) ∧
    (∀ (db : DB) (articleId authorId now i : Nat) (s : QStatus),
      statusOf db i = some s →
      statusOf (get_or_create_quotation db articleId authorId now).1 i = some s) ∧
    (∀ (db : DB) (article : Article) (authorId now : Nat) (bodyParses : Bool)
        (api : ApiOutcome) (i : Nat) (s : QStatus), DBwf db →
      statusOf db i = some s → s ≠ QStatus.pending → s ≠ QStatus.requested →
      statusOf (request_fee_quotation db article authorId now bodyParses api).1 i
        = some s) := by
  refine ⟨?_, ?_, ?_, ?_, ?_, ?_⟩
  · intro db jc rawBody sig payload now i s hwf h hs
    refine webhook_preserves_excluded db jc rawBody sig payload now i s hwf h ?_
    simp only [hardTerminal, List.mem_cons, List.mem_singleton,
      List.not_mem_nil, or_false] at hs
    rcases hs with rfl | rfl | rfl <;> decide
  · intro db jc rawBody sig payload now i s h hs
    exact webhook_accepted_declined db jc rawBody sig payload now i s h hs
  · intro db articleId reason i s h hs
    exact void_preserves_nonactive db articleId reason i s h (by simpa using hs)
  · intro db articleId lastModified i s h hs
    exact staleness_preserves_nonactive db articleId lastModified i s h
      (by simpa using hs)
  · intro db articleId authorId now i s h
    exact goc_preserves db articleId authorId now i s h
  · intro db article authorId now bodyParses api i s hwf h hp hr
    exact request_preserves db article authorId now bodyParses api i s hwf h hp hr

/-- C1 witness: on a database whose only quotation is voided, a webhook
callback naming its quote id leaves its status `voided`. -/
theorem C1_witness :
    DBwf C1vdb ∧ statusOf C1vdb 1 = some QStatus.voided ∧
    QStatus.voided ∈ hardTerminal ∧
    statusOf (webhook_callback C1vdb "j".toList [] Option.none
        (some ⟨some "Q1".toList, some "accepted".toList⟩) 9).1 1
      = some QStatus.voided :=
  ⟨⟨by decide, by decide⟩, by decide, by decide,
    C1_terminal_statuses_amended.1 C1vdb "j".toList [] Option.none
      (some ⟨some "Q1".toList, some "accepted".toList⟩) 9 1 QStatus.voided
      ⟨by decide, by decide⟩ (by decide) (by decide)⟩

end FeeQuotation
